import Mathlib

/-!
Verification of the Cognia plugin SDK IPC layer
(src/plugin-sdk/python/src/cognia/ipc.py).

The development shallowly embeds the IPC layer: the JSON value universe
(numbers restricted to integers), the wire framing used by
StdioTransport.send / StdioTransport._parse_message, the pending-call and
event-handler tables of StdioTransport, and the TauriIPC client state.
Python None is represented by Json.null (json.loads maps JSON null to
Python None, and the dataclass defaults are None).
-/

set_option maxHeartbeats 1000000

namespace Cognia

/- JSON values (and simultaneously the Python values the ipc module
manipulates).  Numbers are modelled as integers; floats are out of scope. -/
mutual
inductive Json where
  | null : Json
  | bool (b : Bool) : Json
  | num (n : Int) : Json
  | str (s : String) : Json
  | arr (elems : JsonArr) : Json
  | obj (members : JsonObj) : Json
deriving DecidableEq, Repr

inductive JsonArr where
  | nil : JsonArr
  | cons (head : Json) (tail : JsonArr) : JsonArr
deriving DecidableEq, Repr

inductive JsonObj where
  | nil : JsonObj
  | cons (key : String) (value : Json) (tail : JsonObj) : JsonObj
deriving DecidableEq, Repr
end

/-- Python truthiness of a JSON-shaped value: None, False, 0, "", [] and
an empty dict are falsy, everything else is truthy. -/
def Json.truthy : Json → Bool
  | .null => false
  | .bool b => b
  | .num n => n != 0
  | .str s => s != ""
  | .arr .nil => false
  | .arr _ => true
  | .obj .nil => false
  | .obj _ => true

/-- First value stored under a key (dict lookup; keys are unique in any
object built by the embedded code). -/
def JsonObj.lookup : JsonObj → String → Option Json
  | .nil, _ => none
  | .cons k v t, key => if k = key then some v else t.lookup key

def JsonObj.hasKey (o : JsonObj) (key : String) : Bool :=
  (o.lookup key).isSome

/-- CPython dict assignment: an existing key keeps its position and gets the
new value, a new key is appended at the end. -/
def JsonObj.update : JsonObj → String → Json → JsonObj
  | .nil, k, v => .cons k v .nil
  | .cons k' v' t, k, v =>
      if k' = k then .cons k' v t else .cons k' v' (t.update k v)

/-- Building a dict from parsed key/value pairs in order (json.loads builds
the object dict by repeated assignment). -/
def objFromPairs (ps : List (String × Json)) : JsonObj :=
  ps.foldl (fun o p => o.update p.1 p.2) .nil

def JsonObj.toPairs : JsonObj → List (String × Json)
  | .nil => []
  | .cons k v t => (k, v) :: t.toPairs

/- Well-formedness: every object reachable inside the value has pairwise
distinct keys.  Values held in Python dicts always satisfy this. -/
mutual
def Json.wfb : Json → Bool
  | .null => true
  | .bool _ => true
  | .num _ => true
  | .str _ => true
  | .arr xs => xs.wfb
  | .obj m => m.wfb

def JsonArr.wfb : JsonArr → Bool
  | .nil => true
  | .cons h t => h.wfb && t.wfb

def JsonObj.wfb : JsonObj → Bool
  | .nil => true
  | .cons k v t => !(t.hasKey k) && v.wfb && t.wfb
end

/-! ### Decimal rendering

Python renders integers in decimal (f-strings in `_generate_id`, json.dumps
for numbers).  `natDec` is the decimal rendering of a natural number. -/

/-- Decimal digit characters of a natural number, most significant first. -/
def natDec (n : Nat) : List Char :=
  if n = 0 then ['0'] else ((Nat.digits 10 n).map Nat.digitChar).reverse

/-- Greedy decimal-digit scanner: consumes leading digit characters,
accumulating their value, and returns the remaining characters. -/
def readDigits (acc : Nat) : List Char → Nat × List Char
  | [] => (acc, [])
  | c :: cs =>
      if c.isDigit then readDigits (10 * acc + (c.toNat - 48)) cs else (acc, c :: cs)

/-- Does the character list start with a decimal digit? -/
def headIsDigit : List Char → Bool
  | [] => false
  | c :: _ => c.isDigit

theorem digitChar_isDigit {d : Nat} (h : d < 10) : (Nat.digitChar d).isDigit = true := by
  revert h; revert d; decide

theorem digitChar_toNat {d : Nat} (h : d < 10) : (Nat.digitChar d).toNat = 48 + d := by
  revert h; revert d; decide

theorem natDec_ne_nil (n : Nat) : natDec n ≠ [] := by
  unfold natDec
  split
  · simp
  · simp only [ne_eq, List.reverse_eq_nil_iff, List.map_eq_nil_iff]
    exact Nat.digits_ne_nil_iff_ne_zero.mpr (by assumption)

theorem natDec_all_digits (n : Nat) : ∀ c ∈ natDec n, c.isDigit = true := by
  intro c hc
  unfold natDec at hc
  split at hc
  · simp at hc; subst hc; decide
  · simp only [List.mem_reverse, List.mem_map] at hc
    obtain ⟨d, hd, rfl⟩ := hc
    exact digitChar_isDigit (Nat.digits_lt_base (by omega) hd)

theorem readDigits_append (ds : List Char) (hds : ∀ c ∈ ds, c.isDigit = true)
    (rest : List Char) (hrest : headIsDigit rest = false) (acc : Nat) :
    readDigits acc (ds ++ rest) =
      (ds.foldl (fun a c => 10 * a + (c.toNat - 48)) acc, rest) := by
  induction ds generalizing acc with
  | nil =>
    simp only [List.nil_append, List.foldl_nil]
    cases rest with
    | nil => rfl
    | cons c cs =>
      simp only [headIsDigit] at hrest
      simp [readDigits, hrest]
  | cons c cs ih =>
    have hc : c.isDigit = true := hds c (by simp)
    simp only [List.cons_append, readDigits, hc, if_true, List.foldl_cons]
    exact ih (fun x hx => hds x (by simp [hx])) _

theorem foldr_digits_ofDigits (ds : List Nat) (h : ∀ d ∈ ds, d < 10) :
    ds.foldr (fun d a => 10 * a + ((Nat.digitChar d).toNat - 48)) 0 =
      Nat.ofDigits 10 ds := by
  induction ds with
  | nil => simp [Nat.ofDigits]
  | cons d t ih =>
    have hd : d < 10 := h d (by simp)
    have ht := ih (fun x hx => h x (by simp [hx]))
    simp only [List.foldr_cons, ht, digitChar_toNat hd, Nat.ofDigits_cons]
    omega

theorem natDec_value (n : Nat) :
    (natDec n).foldl (fun a c => 10 * a + (c.toNat - 48)) 0 = n := by
  unfold natDec
  split
  · subst n; decide
  · rw [List.foldl_reverse]
    have h2 : List.foldr (fun x y => 10 * y + (x.toNat - 48)) 0
          ((Nat.digits 10 n).map Nat.digitChar)
        = (Nat.digits 10 n).foldr (fun d a => 10 * a + ((Nat.digitChar d).toNat - 48)) 0 := by
      rw [List.foldr_map]
    rw [h2, foldr_digits_ofDigits _ (fun d hd => Nat.digits_lt_base (by omega) hd),
      Nat.ofDigits_digits]

theorem readDigits_natDec (n : Nat) (rest : List Char) (hrest : headIsDigit rest = false) :
    readDigits 0 (natDec n ++ rest) = (n, rest) := by
  rw [readDigits_append _ (natDec_all_digits n) _ hrest, natDec_value]

theorem natDec_injective {a b : Nat} (h : natDec a = natDec b) : a = b := by
  have := natDec_value a
  rw [h, natDec_value] at this
  omega

/-- Splitting a digit run at a non-digit separator is unambiguous. -/
theorem digits_sep_split (xs ys r r' : List Char) (c : Char)
    (hx : ∀ a ∈ xs, a.isDigit = true) (hy : ∀ a ∈ ys, a.isDigit = true)
    (hc : c.isDigit = false) (h : xs ++ c :: r = ys ++ c :: r') :
    xs = ys ∧ r = r' := by
  induction xs generalizing ys with
  | nil =>
    cases ys with
    | nil => simp_all
    | cons b t =>
      simp only [List.nil_append, List.cons_append, List.cons.injEq] at h
      have : b.isDigit = true := hy b (by simp)
      rw [← h.1] at this
      rw [this] at hc
      exact absurd hc (by simp)
  | cons a t ih =>
    cases ys with
    | nil =>
      simp only [List.cons_append, List.nil_append, List.cons.injEq] at h
      have : a.isDigit = true := hx a (by simp)
      rw [h.1] at this
      rw [this] at hc
      exact absurd hc (by simp)
    | cons b u =>
      simp only [List.cons_append, List.cons.injEq] at h
      obtain ⟨rfl, h2⟩ := h
      have := ih u (fun x hx' => hx x (by simp [hx'])) (fun x hx' => hy x (by simp [hx'])) h2
      exact ⟨by rw [this.1], this.2⟩

/-! ### JSON serialization (modelling json.dumps with the default
separators: item separator ", " and key separator ": ") -/

/-- Escape one character inside a JSON string literal (quote, backslash and
control characters; other characters are emitted literally). -/
def escapeChar (c : Char) : List Char :=
  if c = '"' then ['\\', '"']
  else if c = '\\' then ['\\', '\\']
  else if c = '\n' then ['\\', 'n']
  else if c = '\t' then ['\\', 't']
  else if c = '\r' then ['\\', 'r']
  else if c = '\x08' then ['\\', 'b']
  else if c = '\x0c' then ['\\', 'f']
  else if c.toNat < 32 then
    ['\\', 'u', '0', '0', Nat.digitChar (c.toNat / 16), Nat.digitChar (c.toNat % 16)]
  else [c]

def escapeStr : List Char → List Char
  | [] => []
  | c :: cs => escapeChar c ++ escapeStr cs

/-- Decimal rendering of an integer (sign and digits). -/
def intChars (n : Int) : List Char :=
  if n < 0 then '-' :: natDec n.natAbs else natDec n.toNat

mutual
def Json.dumpChars : Json → List Char
  | .num n => intChars n
  | .bool b => if b then ['t', 'r', 'u', 'e'] else ['f', 'a', 'l', 's', 'e']
  | .str s => '"' :: (escapeStr s.data ++ ['"'])
  | .arr xs => '[' :: xs.dumpElems
  | .obj m => '\x7b' :: m.dumpMembers
  | .null => ['n', 'u', 'l', 'l']

def JsonArr.dumpElems : JsonArr → List Char
  | .nil => [']']
  | .cons h t => h.dumpChars ++ t.dumpMore

def JsonArr.dumpMore : JsonArr → List Char
  | .nil => [']']
  | .cons h t => ',' :: ' ' :: (h.dumpChars ++ t.dumpMore)

def JsonObj.dumpMembers : JsonObj → List Char
  | .nil => ['\x7d']
  | .cons k v t =>
      '"' :: (escapeStr k.data ++ '"' :: ':' :: ' ' :: (v.dumpChars ++ t.dumpMore))

def JsonObj.dumpMore : JsonObj → List Char
  | .nil => ['\x7d']
  | .cons k v t =>
      ',' :: ' ' :: '"' ::
        (escapeStr k.data ++ '"' :: ':' :: ' ' :: (v.dumpChars ++ t.dumpMore))
end

/-- Serialize a JSON value to a string, as json.dumps does. -/
def Json.dumps (j : Json) : String := String.mk j.dumpChars

/-! ### JSON parsing (modelling json.loads) -/

def isJsonWs (c : Char) : Bool := c = ' ' || c = '\n' || c = '\t' || c = '\r'

def skipWs : List Char → List Char
  | [] => []
  | c :: cs => if isJsonWs c then skipWs cs else c :: cs

/-- Value of one hexadecimal digit character. -/
def hexVal (c : Char) : Option Nat :=
  if c.isDigit then some (c.toNat - 48)
  else if 'a' ≤ c && c ≤ 'f' then some (c.toNat - 87)
  else if 'A' ≤ c && c ≤ 'F' then some (c.toNat - 55)
  else none

/-- Consume an expected literal character sequence. -/
def dropLit : List Char → List Char → Option (List Char)
  | [], cs => some cs
  | _ :: _, [] => none
  | p :: ps, c :: cs => if c = p then dropLit ps cs else none

mutual
/-- Parse the body of a JSON string literal (the opening quote already
consumed); returns the decoded characters and the rest of the input. -/
def strBody : List Char → Option (List Char × List Char)
  | [] => none
  | c :: rest =>
      if c = '"' then some ([], rest)
      else if c = '\\' then decodeEsc rest
      else (strBody rest).map (fun p => (c :: p.1, p.2))

/-- Decode one escape sequence (the backslash already consumed). -/
def decodeEsc : List Char → Option (List Char × List Char)
  | [] => none
  | e :: r =>
      if e = '"' then (strBody r).map (fun p => ('"' :: p.1, p.2))
      else if e = '\\' then (strBody r).map (fun p => ('\\' :: p.1, p.2))
      else if e = '/' then (strBody r).map (fun p => ('/' :: p.1, p.2))
      else if e = 'n' then (strBody r).map (fun p => ('\n' :: p.1, p.2))
      else if e = 't' then (strBody r).map (fun p => ('\t' :: p.1, p.2))
      else if e = 'r' then (strBody r).map (fun p => ('\r' :: p.1, p.2))
      else if e = 'b' then (strBody r).map (fun p => ('\x08' :: p.1, p.2))
      else if e = 'f' then (strBody r).map (fun p => ('\x0c' :: p.1, p.2))
      else if e = 'u' then decodeHexEsc r
      else none

/-- Decode the four hex digits of a \uXXXX escape and continue with the
string body. -/
def decodeHexEsc : List Char → Option (List Char × List Char)
  | h1 :: h2 :: h3 :: h4 :: r2 =>
      match hexVal h1, hexVal h2, hexVal h3, hexVal h4 with
      | some a, some b, some c, some d =>
          (strBody r2).map
            (fun p => (Char.ofNat (((a * 16 + b) * 16 + c) * 16 + d) :: p.1, p.2))
      | _, _, _, _ => none
  | _ => none
end

/-- Consume an expected colon token. -/
def expectColon : List Char → Option (List Char)
  | ':' :: r => some r
  | _ => none

/-- Consume an expected opening quote. -/
def expectQuote : List Char → Option (List Char)
  | '"' :: r => some r
  | _ => none

mutual
/-- Parse one JSON value.  The fuel bounds the nesting depth; loads
supplies enough for any input. -/
def parseVal : Nat → List Char → Option (Json × List Char)
  | 0, _ => none
  | _ + 1, [] => none
  | fuel + 1, c :: rest =>
      if c = 'n' then (dropLit ['u', 'l', 'l'] rest).map (fun r => (Json.null, r))
      else if c = 't' then (dropLit ['r', 'u', 'e'] rest).map (fun r => (Json.bool true, r))
      else if c = 'f' then (dropLit ['a', 'l', 's', 'e'] rest).map (fun r => (Json.bool false, r))
      else if c = '"' then (strBody rest).map (fun p => (Json.str (String.mk p.1), p.2))
      else if c = '-' then
        if headIsDigit rest then
          let p := readDigits 0 rest
          some (Json.num (-(p.1 : Int)), p.2)
        else none
      else if c = '[' then (parseElems fuel (skipWs rest)).map (fun p => (Json.arr p.1, p.2))
      else if c = '\x7b' then
        (parseMembers fuel (skipWs rest)).map (fun p => (Json.obj (objFromPairs p.1), p.2))
      else if c.isDigit then
        let p := readDigits 0 (c :: rest)
        some (Json.num (p.1 : Int), p.2)
      else none

/-- Parse the elements of an array after the opening bracket (and any
whitespace); handles the empty array. -/
def parseElems : Nat → List Char → Option (JsonArr × List Char)
  | 0, _ => none
  | _ + 1, [] => none
  | fuel + 1, c :: rest =>
      if c = ']' then some (.nil, rest)
      else
        (parseVal fuel (c :: rest)).bind (fun p =>
          (parseElemsMore fuel (skipWs p.2)).map (fun q => (.cons p.1 q.1, q.2)))

/-- Parse ", element" continuations of an array, or its closing bracket. -/
def parseElemsMore : Nat → List Char → Option (JsonArr × List Char)
  | 0, _ => none
  | _ + 1, [] => none
  | fuel + 1, c :: rest =>
      if c = ']' then some (.nil, rest)
      else if c = ',' then
        (parseVal fuel (skipWs rest)).bind (fun p =>
          (parseElemsMore fuel (skipWs p.2)).map (fun q => (.cons p.1 q.1, q.2)))
      else none

/-- Parse the members of an object after the opening brace (and any
whitespace); yields the raw key/value pairs in input order. -/
def parseMembers : Nat → List Char → Option (List (String × Json) × List Char)
  | 0, _ => none
  | _ + 1, [] => none
  | fuel + 1, c :: rest =>
      if c = '\x7d' then some ([], rest)
      else if c = '"' then parseMember fuel rest
      else none

/-- Parse one "key": value member (the opening quote of the key already
consumed) followed by the remaining members. -/
def parseMember : Nat → List Char → Option (List (String × Json) × List Char)
  | 0, _ => none
  | fuel + 1, cs =>
      (strBody cs).bind (fun pk =>
        (expectColon (skipWs pk.2)).bind (fun r2 =>
          (parseVal fuel (skipWs r2)).bind (fun pv =>
            (parseMembersMore fuel (skipWs pv.2)).map (fun pt =>
              ((String.mk pk.1, pv.1) :: pt.1, pt.2)))))

/-- Parse ", \"key\": value" continuations of an object, or its closing
brace. -/
def parseMembersMore : Nat → List Char → Option (List (String × Json) × List Char)
  | 0, _ => none
  | _ + 1, [] => none
  | fuel + 1, c :: rest =>
      if c = '\x7d' then some ([], rest)
      else if c = ',' then
        (expectQuote (skipWs rest)).bind (fun r => parseMember fuel r)
      else none
end

/-- Parse a complete JSON document, as json.loads does: optional leading
and trailing whitespace around exactly one value. -/
def loads (s : String) : Option Json :=
  let cs := skipWs s.data
  match parseVal (cs.length + 1) cs with
  | none => none
  | some (j, rest) => if skipWs rest = [] then some j else none

/-! ### Round trip: parsing inverts serialization -/

theorem skipWs_not_ws {c : Char} (h : isJsonWs c = false) (cs : List Char) :
    skipWs (c :: cs) = c :: cs := by
  simp [skipWs, h]

theorem digit_not_ws {c : Char} (h : c.isDigit = true) : isJsonWs c = false := by
  by_contra hw
  simp only [isJsonWs, Bool.or_eq_true, decide_eq_true_eq, Bool.not_eq_false] at hw
  rcases hw with ((rfl | rfl) | rfl) | rfl <;> simp [Char.isDigit] at h

theorem isDigit_ne_of {c : Char} (k : Char) (h : c.isDigit = true)
    (hk : k.isDigit = false) : c ≠ k := by
  intro e; rw [e, hk] at h; exact absurd h (by simp)

theorem headIsDigit_natDec (m : Nat) (r : List Char) :
    headIsDigit (natDec m ++ r) = true := by
  obtain ⟨c, cs, hc⟩ : ∃ c cs, natDec m = c :: cs := by
    cases h : natDec m with
    | nil => exact absurd h (natDec_ne_nil m)
    | cons c cs => exact ⟨c, cs, rfl⟩
  rw [hc]
  simpa [headIsDigit] using natDec_all_digits m c (by rw [hc]; simp)

theorem escapeStr_append (a b : List Char) :
    escapeStr (a ++ b) = escapeStr a ++ escapeStr b := by
  induction a with
  | nil => rfl
  | cons c cs ih => simp [escapeStr, ih]

theorem hex32 : ∀ m : Nat, m < 32 →
    hexVal (Nat.digitChar (m / 16)) = some (m / 16) ∧
    hexVal (Nat.digitChar (m % 16)) = some (m % 16) := by decide

theorem strBody_quot (r : List Char) : strBody ('"' :: r) = some ([], r) := by
  rw [strBody]; simp

theorem strBody_bslash (r : List Char) : strBody ('\\' :: r) = decodeEsc r := by
  rw [strBody]; simp

theorem strBody_other {c : Char} (h1 : c ≠ '"') (h2 : c ≠ '\\') (r : List Char) :
    strBody (c :: r) = (strBody r).map (fun p => (c :: p.1, p.2)) := by
  rw [strBody, if_neg h1, if_neg h2]

theorem decodeEsc_quot (r : List Char) :
    decodeEsc ('"' :: r) = (strBody r).map (fun p => ('"' :: p.1, p.2)) := by
  rw [decodeEsc]; simp

theorem decodeEsc_bslash (r : List Char) :
    decodeEsc ('\\' :: r) = (strBody r).map (fun p => ('\\' :: p.1, p.2)) := by
  rw [decodeEsc]; simp

theorem decodeEsc_n (r : List Char) :
    decodeEsc ('n' :: r) = (strBody r).map (fun p => ('\n' :: p.1, p.2)) := by
  rw [decodeEsc]; simp

theorem decodeEsc_t (r : List Char) :
    decodeEsc ('t' :: r) = (strBody r).map (fun p => ('\t' :: p.1, p.2)) := by
  rw [decodeEsc]; simp

theorem decodeEsc_r (r : List Char) :
    decodeEsc ('r' :: r) = (strBody r).map (fun p => ('\r' :: p.1, p.2)) := by
  rw [decodeEsc]; simp

theorem decodeEsc_b (r : List Char) :
    decodeEsc ('b' :: r) = (strBody r).map (fun p => ('\x08' :: p.1, p.2)) := by
  rw [decodeEsc]; simp

theorem decodeEsc_f (r : List Char) :
    decodeEsc ('f' :: r) = (strBody r).map (fun p => ('\x0c' :: p.1, p.2)) := by
  rw [decodeEsc]; simp

theorem decodeEsc_u (r : List Char) : decodeEsc ('u' :: r) = decodeHexEsc r := by
  rw [decodeEsc]; simp

theorem strBody_escape (s rest : List Char) :
    strBody (escapeStr s ++ '"' :: rest) = some (s, rest) := by
  induction s with
  | nil => simpa [escapeStr] using strBody_quot rest
  | cons c cs ih =>
    show strBody ((escapeChar c ++ escapeStr cs) ++ '"' :: rest) = _
    rw [List.append_assoc]
    unfold escapeChar
    split
    · next h => subst h; simp [strBody_bslash, decodeEsc_quot, ih]
    · split
      · next h => subst h; simp [strBody_bslash, decodeEsc_bslash, ih]
      · split
        · next h => subst h; simp [strBody_bslash, decodeEsc_n, ih]
        · split
          · next h => subst h; simp [strBody_bslash, decodeEsc_t, ih]
          · split
            · next h => subst h; simp [strBody_bslash, decodeEsc_r, ih]
            · split
              · next h => subst h; simp [strBody_bslash, decodeEsc_b, ih]
              · split
                · next h => subst h; simp [strBody_bslash, decodeEsc_f, ih]
                · split
                  · next h1 h2 h3 h4 h5 h6 h7 hlt =>
                    have hx := hex32 c.toNat hlt
                    have h0 : hexVal '0' = some 0 := by decide
                    simp only [List.cons_append, List.nil_append]
                    rw [strBody_bslash, decodeEsc_u]
                    simp only [decodeHexEsc, h0, hx.1, hx.2, ih, Option.map_some]
                    have hc : (((0 * 16 + 0) * 16 + c.toNat / 16) * 16 + c.toNat % 16)
                        = c.toNat := by omega
                    rw [hc, Char.ofNat_toNat]
                    rfl
                  · next h1 h2 h3 h4 h5 h6 h7 hge =>
                    simp only [List.cons_append, List.nil_append]
                    rw [strBody_other h1 h2, ih]
                    rfl

/-! ### Rebuilding an object from its printed members -/

def JsonObj.append : JsonObj → JsonObj → JsonObj
  | .nil, o => o
  | .cons k v t, o => .cons k v (t.append o)

/-- Structural induction along the member spine of one object (the mutual
recursor of the Json family specialised to a single motive). -/
theorem JsonObj.objSpine {P : JsonObj → Prop} (hnil : P .nil)
    (hcons : ∀ k v t, P t → P (.cons k v t)) : ∀ o, P o
  | .nil => hnil
  | .cons k v t => hcons k v t (JsonObj.objSpine hnil hcons t)

theorem JsonArr.arrSpine {P : JsonArr → Prop} (hnil : P .nil)
    (hcons : ∀ h t, P t → P (.cons h t)) : ∀ xs, P xs
  | .nil => hnil
  | .cons h t => hcons h t (JsonArr.arrSpine hnil hcons t)

theorem JsonObj.append_nil : ∀ o : JsonObj, o.append .nil = o := by
  apply JsonObj.objSpine
  · rfl
  · intro k v t ih; simp [JsonObj.append, ih]

theorem JsonObj.append_assoc (b c : JsonObj) :
    ∀ a : JsonObj, (a.append b).append c = a.append (b.append c) := by
  apply JsonObj.objSpine
  · rfl
  · intro k v t ih; simp [JsonObj.append, ih]

theorem JsonObj.hasKey_append (b : JsonObj) (k : String) :
    ∀ a : JsonObj, (a.append b).hasKey k = (a.hasKey k || b.hasKey k) := by
  apply JsonObj.objSpine
  · simp [JsonObj.append, JsonObj.hasKey, JsonObj.lookup]
  · intro k' v t ih
    by_cases h : k' = k
    · subst h; simp [JsonObj.append, JsonObj.hasKey, JsonObj.lookup]
    · simp only [JsonObj.append, JsonObj.hasKey, JsonObj.lookup, if_neg h] at *
      exact ih

theorem JsonObj.update_absent (k : String) (v : Json) :
    ∀ o : JsonObj, o.hasKey k = false → o.update k v = o.append (.cons k v .nil) := by
  apply JsonObj.objSpine
  · intro _; rfl
  · intro k' v' t ih h
    simp only [JsonObj.hasKey, JsonObj.lookup] at h
    by_cases hk : k' = k
    · subst hk; simp at h
    · simp only [if_neg hk] at h
      simp only [JsonObj.update, if_neg hk, JsonObj.append]
      rw [ih]
      simp only [JsonObj.hasKey]
      exact h

/-- Keys along the spine of one object are pairwise distinct. -/
def JsonObj.nodupKeys : JsonObj → Bool
  | .nil => true
  | .cons k _ t => !(t.hasKey k) && t.nodupKeys

theorem JsonObj.wfb_nodupKeys : ∀ o : JsonObj, o.wfb = true → o.nodupKeys = true := by
  apply JsonObj.objSpine
  · intro _; rfl
  · intro k v t ih h
    simp only [JsonObj.wfb, Bool.and_eq_true] at h
    simp [JsonObj.nodupKeys, h.1.1, ih h.2]

theorem foldl_update_append :
    ∀ m : JsonObj, ∀ acc : JsonObj, m.nodupKeys = true →
      (∀ k, m.hasKey k = true → acc.hasKey k = false) →
      m.toPairs.foldl (fun o p => o.update p.1 p.2) acc = acc.append m := by
  apply JsonObj.objSpine
    (P := fun m => ∀ acc : JsonObj, m.nodupKeys = true →
      (∀ k, m.hasKey k = true → acc.hasKey k = false) →
      m.toPairs.foldl (fun o p => o.update p.1 p.2) acc = acc.append m)
  · intro acc _ _; simp [JsonObj.toPairs, JsonObj.append_nil]
  · intro k v t ih acc hm hdisj
    simp only [JsonObj.nodupKeys, Bool.and_eq_true, Bool.not_eq_true'] at hm
    have hacc : acc.hasKey k = false := by
      apply hdisj; simp [JsonObj.hasKey, JsonObj.lookup]
    simp only [JsonObj.toPairs, List.foldl_cons]
    rw [JsonObj.update_absent k v acc hacc]
    rw [ih (acc.append (.cons k v .nil)) hm.2]
    · rw [JsonObj.append_assoc]; rfl
    · intro k' hk'
      rw [JsonObj.hasKey_append]
      have hne : k ≠ k' := by
        intro e; subst e; rw [hm.1] at hk'; exact absurd hk' (by simp)
      have h1 : acc.hasKey k' = false := by
        apply hdisj
        simp [JsonObj.hasKey, JsonObj.lookup, if_neg hne]
        simp only [JsonObj.hasKey] at hk'
        simp_all
      have h2 : (JsonObj.cons k v JsonObj.nil).hasKey k' = false := by
        simp [JsonObj.hasKey, JsonObj.lookup, if_neg hne]
      rw [h1, h2]
      rfl

theorem objFromPairs_toPairs (m : JsonObj) (h : m.nodupKeys = true) :
    objFromPairs m.toPairs = m := by
  unfold objFromPairs
  rw [foldl_update_append m .nil h (fun k _ => by simp [JsonObj.hasKey, JsonObj.lookup])]
  rfl

theorem stringMk_data (s : String) : String.mk s.data = s := by
  cases s; rfl

/-- The first character of a serialized value: never whitespace and never a
closing delimiter. -/
theorem dump_head (j : Json) :
    ∃ c cs, j.dumpChars = c :: cs ∧ isJsonWs c = false ∧ c ≠ ']' ∧ c ≠ '\x7d' := by
  cases j with
  | null => exact ⟨'n', ['u', 'l', 'l'], by simp [Json.dumpChars], by decide, by decide, by decide⟩
  | bool b =>
    cases b with
    | true => exact ⟨'t', ['r', 'u', 'e'], by simp [Json.dumpChars], by decide, by decide, by decide⟩
    | false =>
      exact ⟨'f', ['a', 'l', 's', 'e'], by simp [Json.dumpChars], by decide, by decide, by decide⟩
  | num n =>
    by_cases h : n < 0
    · exact ⟨'-', natDec n.natAbs, by simp [Json.dumpChars, intChars, h], by decide, by decide,
        by decide⟩
    · obtain ⟨c, cs, hc⟩ := List.exists_cons_of_ne_nil (natDec_ne_nil n.toNat)
      have hd : c.isDigit = true := natDec_all_digits n.toNat c (by rw [hc]; simp)
      exact ⟨c, cs, by simp [Json.dumpChars, intChars, h, hc], digit_not_ws hd,
        isDigit_ne_of ']' hd (by decide), isDigit_ne_of '\x7d' hd (by decide)⟩
  | str s =>
    exact ⟨'"', escapeStr s.data ++ ['"'], by simp [Json.dumpChars], by decide, by decide,
      by decide⟩
  | arr xs => exact ⟨'[', xs.dumpElems, by simp [Json.dumpChars], by decide, by decide, by decide⟩
  | obj m =>
    exact ⟨'\x7b', m.dumpMembers, by simp [Json.dumpChars], by decide, by decide, by decide⟩

theorem dump_len_pos (j : Json) : 1 ≤ (Json.dumpChars j).length := by
  obtain ⟨c, cs, hc, _⟩ := dump_head j
  rw [hc]; simp

theorem skipWs_dump (j : Json) (r : List Char) :
    skipWs (j.dumpChars ++ r) = j.dumpChars ++ r := by
  obtain ⟨c, cs, hc, hws, _⟩ := dump_head j
  rw [hc]
  exact skipWs_not_ws hws _

theorem headIsDigit_dumpAfter {r0 : List Char} (c : Char) (cs : List Char)
    (h : r0 = c :: cs) (hd : c.isDigit = false) (r : List Char) :
    headIsDigit (r0 ++ r) = false := by
  subst h; simp [headIsDigit, hd]

/-- The continuation of an array body starts with a comma or the closing
bracket. -/
theorem arrMore_head (t : JsonArr) :
    ∃ c cs, JsonArr.dumpMore t = c :: cs ∧ (c = ',' ∨ c = ']') := by
  cases t with
  | nil => exact ⟨']', [], by simp [JsonArr.dumpMore], Or.inr rfl⟩
  | cons h u =>
    exact ⟨',', ' ' :: (h.dumpChars ++ u.dumpMore), by simp [JsonArr.dumpMore], Or.inl rfl⟩

theorem objMore_head (t : JsonObj) :
    ∃ c cs, JsonObj.dumpMore t = c :: cs ∧ (c = ',' ∨ c = '\x7d') := by
  cases t with
  | nil => exact ⟨'\x7d', [], by simp [JsonObj.dumpMore], Or.inr rfl⟩
  | cons k v u =>
    exact ⟨',', ' ' :: '"' :: (escapeStr k.data ++ '"' :: ':' :: ' ' :: (v.dumpChars ++ u.dumpMore)),
      by simp [JsonObj.dumpMore], Or.inl rfl⟩

theorem arrMore_after (t : JsonArr) (r : List Char) :
    skipWs (JsonArr.dumpMore t ++ r) = JsonArr.dumpMore t ++ r ∧
      headIsDigit (JsonArr.dumpMore t ++ r) = false ∧
      1 ≤ (JsonArr.dumpMore t).length := by
  obtain ⟨c, cs, hc, hor⟩ := arrMore_head t
  have hws : isJsonWs c = false := by rcases hor with rfl | rfl <;> decide
  have hd : c.isDigit = false := by rcases hor with rfl | rfl <;> decide
  refine ⟨?_, headIsDigit_dumpAfter c cs hc hd r, by rw [hc]; simp⟩
  rw [hc]
  exact skipWs_not_ws hws _

theorem objMore_after (t : JsonObj) (r : List Char) :
    skipWs (JsonObj.dumpMore t ++ r) = JsonObj.dumpMore t ++ r ∧
      headIsDigit (JsonObj.dumpMore t ++ r) = false ∧
      1 ≤ (JsonObj.dumpMore t).length := by
  obtain ⟨c, cs, hc, hor⟩ := objMore_head t
  have hws : isJsonWs c = false := by rcases hor with rfl | rfl <;> decide
  have hd : c.isDigit = false := by rcases hor with rfl | rfl <;> decide
  refine ⟨?_, headIsDigit_dumpAfter c cs hc hd r, by rw [hc]; simp⟩
  rw [hc]
  exact skipWs_not_ws hws _

theorem skipWs_space (cs : List Char) : skipWs (' ' :: cs) = skipWs cs := by
  rw [skipWs]; simp [isJsonWs]

theorem elems_after (xs : JsonArr) (r : List Char) :
    skipWs (JsonArr.dumpElems xs ++ r) = JsonArr.dumpElems xs ++ r := by
  cases xs with
  | nil =>
    simp only [JsonArr.dumpElems, List.cons_append, List.nil_append]
    exact skipWs_not_ws (by decide) _
  | cons h t =>
    simp only [JsonArr.dumpElems, List.append_assoc]
    exact skipWs_dump h _

theorem members_after (m : JsonObj) (r : List Char) :
    skipWs (JsonObj.dumpMembers m ++ r) = JsonObj.dumpMembers m ++ r := by
  cases m with
  | nil =>
    simp only [JsonObj.dumpMembers, List.cons_append, List.nil_append]
    exact skipWs_not_ws (by decide) _
  | cons k v t =>
    simp only [JsonObj.dumpMembers, List.cons_append]
    exact skipWs_not_ws (by decide) _

/-- One parsed array element followed by its parsed continuation. -/
theorem elems_step (h : Json) (t : JsonArr) (f : Nat) (rest : List Char)
    (hv : parseVal f (Json.dumpChars h ++ (JsonArr.dumpMore t ++ rest))
        = some (h, JsonArr.dumpMore t ++ rest))
    (ht : parseElemsMore f (JsonArr.dumpMore t ++ rest) = some (t, rest)) :
    (parseVal f (Json.dumpChars h ++ (JsonArr.dumpMore t ++ rest))).bind (fun p =>
        (parseElemsMore f (skipWs p.2)).map (fun q => (JsonArr.cons p.1 q.1, q.2)))
      = some (.cons h t, rest) := by
  rw [hv]
  simp only [Option.bind]
  rw [(arrMore_after t rest).1, ht]
  rfl

/-- One parsed object member followed by its parsed continuation. -/
theorem parseMember_step (k : String) (v : Json) (t : JsonObj) (f2 : Nat) (rest : List Char)
    (hv : parseVal f2 (Json.dumpChars v ++ (JsonObj.dumpMore t ++ rest))
        = some (v, JsonObj.dumpMore t ++ rest))
    (ht : parseMembersMore f2 (JsonObj.dumpMore t ++ rest) = some (t.toPairs, rest)) :
    parseMember (f2 + 1)
        (escapeStr k.data ++ '"' :: ':' :: ' ' ::
          (Json.dumpChars v ++ (JsonObj.dumpMore t ++ rest)))
      = some ((k, v) :: t.toPairs, rest) := by
  rw [parseMember, strBody_escape]
  simp only [Option.bind]
  rw [skipWs_not_ws (by decide)]
  simp only [expectColon, Option.bind]
  rw [skipWs_space, skipWs_dump v, hv]
  simp only [Option.bind]
  rw [(objMore_after t rest).1, ht]
  simp [stringMk_data]

mutual
theorem parseVal_dump : ∀ (j : Json) (fuel : Nat) (rest : List Char),
    (Json.dumpChars j).length ≤ fuel → headIsDigit rest = false → j.wfb = true →
    parseVal fuel (Json.dumpChars j ++ rest) = some (j, rest)
  | .null, fuel, rest => fun hf hr _ => by
      simp only [Json.dumpChars, List.length_cons, List.length_nil] at hf
      obtain ⟨f, rfl⟩ : ∃ f, fuel = f + 1 := ⟨fuel - 1, by omega⟩
      simp [Json.dumpChars, parseVal, dropLit]
  | .bool true, fuel, rest => fun hf hr _ => by
      simp [Json.dumpChars] at hf
      obtain ⟨f, rfl⟩ : ∃ f, fuel = f + 1 := ⟨fuel - 1, by omega⟩
      simp [Json.dumpChars, parseVal, dropLit]
  | .bool false, fuel, rest => fun hf hr _ => by
      simp [Json.dumpChars] at hf
      obtain ⟨f, rfl⟩ : ∃ f, fuel = f + 1 := ⟨fuel - 1, by omega⟩
      simp [Json.dumpChars, parseVal, dropLit]
  | .num n, fuel, rest => fun hf hr _ => by
      have hpos := dump_len_pos (Json.num n)
      obtain ⟨f, rfl⟩ : ∃ f, fuel = f + 1 := ⟨fuel - 1, by omega⟩
      by_cases h : n < 0
      · have hd : Json.dumpChars (Json.num n) = '-' :: natDec n.natAbs := by
          simp [Json.dumpChars, intChars, h]
        rw [hd, List.cons_append, parseVal]
        rw [if_neg (by decide), if_neg (by decide), if_neg (by decide), if_neg (by decide),
          if_pos rfl]
        rw [headIsDigit_natDec n.natAbs rest]
        rw [readDigits_natDec n.natAbs rest hr]
        rw [if_pos rfl]
        show some (Json.num (-(n.natAbs : Int)), rest) = some (Json.num n, rest)
        have hn : -((n.natAbs : Nat) : Int) = n := by omega
        rw [hn]
      · obtain ⟨c, cs, hc⟩ := List.exists_cons_of_ne_nil (natDec_ne_nil n.toNat)
        have hdig : c.isDigit = true := natDec_all_digits n.toNat c (by rw [hc]; simp)
        have hd : Json.dumpChars (Json.num n) = c :: cs := by
          simp [Json.dumpChars, intChars, h, hc]
        rw [hd, List.cons_append, parseVal]
        rw [if_neg (isDigit_ne_of 'n' hdig (by decide)),
          if_neg (isDigit_ne_of 't' hdig (by decide)),
          if_neg (isDigit_ne_of 'f' hdig (by decide)),
          if_neg (isDigit_ne_of '"' hdig (by decide)),
          if_neg (isDigit_ne_of '-' hdig (by decide)),
          if_neg (isDigit_ne_of '[' hdig (by decide)),
          if_neg (isDigit_ne_of '\x7b' hdig (by decide)), if_pos hdig]
        have heq : c :: (cs ++ rest) = natDec n.toNat ++ rest := by simp [hc]
        rw [heq, readDigits_natDec n.toNat rest hr]
        show some (Json.num ((n.toNat : Nat) : Int), rest) = some (Json.num n, rest)
        have hn : ((n.toNat : Nat) : Int) = n := by omega
        rw [hn]
  | .str s, fuel, rest => fun hf hr _ => by
      have hpos := dump_len_pos (Json.str s)
      obtain ⟨f, rfl⟩ : ∃ f, fuel = f + 1 := ⟨fuel - 1, by omega⟩
      have hd : Json.dumpChars (Json.str s) ++ rest
          = '"' :: (escapeStr s.data ++ '"' :: rest) := by
        simp [Json.dumpChars]
      rw [hd, parseVal]
      rw [if_neg (by decide), if_neg (by decide), if_neg (by decide), if_pos rfl]
      rw [strBody_escape]
      simp [stringMk_data]
  | .arr xs, fuel, rest => fun hf hr hw => by
      simp only [Json.dumpChars, List.length_cons] at hf
      obtain ⟨f, rfl⟩ : ∃ f, fuel = f + 1 := ⟨fuel - 1, by omega⟩
      have hd : Json.dumpChars (Json.arr xs) ++ rest
          = '[' :: (JsonArr.dumpElems xs ++ rest) := by
        simp [Json.dumpChars]
      rw [hd, parseVal]
      rw [if_neg (by decide), if_neg (by decide), if_neg (by decide), if_neg (by decide),
        if_neg (by decide), if_pos rfl]
      rw [elems_after]
      rw [parseElems_dump xs f rest (by omega) hr (by simpa [Json.wfb] using hw)]
      rfl
  | .obj m, fuel, rest => fun hf hr hw => by
      simp only [Json.dumpChars, List.length_cons] at hf
      obtain ⟨f, rfl⟩ : ∃ f, fuel = f + 1 := ⟨fuel - 1, by omega⟩
      have hd : Json.dumpChars (Json.obj m) ++ rest
          = '\x7b' :: (JsonObj.dumpMembers m ++ rest) := by
        simp [Json.dumpChars]
      rw [hd, parseVal]
      rw [if_neg (by decide), if_neg (by decide), if_neg (by decide), if_neg (by decide),
        if_neg (by decide), if_neg (by decide), if_pos rfl]
      rw [members_after]
      rw [parseMembers_dump m f rest (by omega) hr (by simpa [Json.wfb] using hw)]
      have hnd := JsonObj.wfb_nodupKeys m (by simpa [Json.wfb] using hw)
      simp [objFromPairs_toPairs m hnd]

theorem parseElems_dump : ∀ (xs : JsonArr) (fuel : Nat) (rest : List Char),
    (JsonArr.dumpElems xs).length ≤ fuel → headIsDigit rest = false → xs.wfb = true →
    parseElems fuel (JsonArr.dumpElems xs ++ rest) = some (xs, rest)
  | .nil, fuel, rest => fun hf hr _ => by
      simp only [JsonArr.dumpElems, List.length_cons, List.length_nil] at hf
      obtain ⟨f, rfl⟩ : ∃ f, fuel = f + 1 := ⟨fuel - 1, by omega⟩
      simp [JsonArr.dumpElems, parseElems]
  | .cons h t, fuel, rest => fun hf hr hw => by
      have hw2 : h.wfb = true ∧ t.wfb = true := by
        simpa [JsonArr.wfb, Bool.and_eq_true] using hw
      obtain ⟨c, cs, hc, hws, hbr, _⟩ := dump_head h
      obtain ⟨hskip, hdig, hlen1⟩ := arrMore_after t rest
      have hvlen := dump_len_pos h
      simp only [JsonArr.dumpElems, List.length_append] at hf
      obtain ⟨f, rfl⟩ : ∃ f, fuel = f + 1 := ⟨fuel - 1, by omega⟩
      have hd : JsonArr.dumpElems (.cons h t) ++ rest
          = c :: (cs ++ (JsonArr.dumpMore t ++ rest)) := by
        simp [JsonArr.dumpElems, hc]
      rw [hd, parseElems, if_neg hbr]
      have hre : c :: (cs ++ (JsonArr.dumpMore t ++ rest))
          = Json.dumpChars h ++ (JsonArr.dumpMore t ++ rest) := by
        simp [hc]
      rw [hre]
      exact elems_step h t f rest
        (parseVal_dump h f _ (by omega) hdig hw2.1)
        (parseElemsMore_dump t f rest (by omega) hr hw2.2)

theorem parseElemsMore_dump : ∀ (xs : JsonArr) (fuel : Nat) (rest : List Char),
    (JsonArr.dumpMore xs).length ≤ fuel → headIsDigit rest = false → xs.wfb = true →
    parseElemsMore fuel (JsonArr.dumpMore xs ++ rest) = some (xs, rest)
  | .nil, fuel, rest => fun hf hr _ => by
      simp only [JsonArr.dumpMore, List.length_cons, List.length_nil] at hf
      obtain ⟨f, rfl⟩ : ∃ f, fuel = f + 1 := ⟨fuel - 1, by omega⟩
      simp [JsonArr.dumpMore, parseElemsMore]
  | .cons h t, fuel, rest => fun hf hr hw => by
      have hw2 : h.wfb = true ∧ t.wfb = true := by
        simpa [JsonArr.wfb, Bool.and_eq_true] using hw
      obtain ⟨hskip, hdig, hlen1⟩ := arrMore_after t rest
      have hvlen := dump_len_pos h
      simp only [JsonArr.dumpMore, List.length_cons, List.length_append] at hf
      obtain ⟨f, rfl⟩ : ∃ f, fuel = f + 1 := ⟨fuel - 1, by omega⟩
      have hd : JsonArr.dumpMore (.cons h t) ++ rest
          = ',' :: ' ' :: (Json.dumpChars h ++ (JsonArr.dumpMore t ++ rest)) := by
        simp [JsonArr.dumpMore]
      rw [hd, parseElemsMore]
      rw [if_neg (by decide), if_pos rfl]
      rw [skipWs_space, skipWs_dump h]
      exact elems_step h t f rest
        (parseVal_dump h f _ (by omega) hdig hw2.1)
        (parseElemsMore_dump t f rest (by omega) hr hw2.2)

theorem parseMembers_dump : ∀ (m : JsonObj) (fuel : Nat) (rest : List Char),
    (JsonObj.dumpMembers m).length ≤ fuel → headIsDigit rest = false → m.wfb = true →
    parseMembers fuel (JsonObj.dumpMembers m ++ rest) = some (m.toPairs, rest)
  | .nil, fuel, rest => fun hf hr _ => by
      simp only [JsonObj.dumpMembers, List.length_cons, List.length_nil] at hf
      obtain ⟨f, rfl⟩ : ∃ f, fuel = f + 1 := ⟨fuel - 1, by omega⟩
      simp [JsonObj.dumpMembers, parseMembers, JsonObj.toPairs]
  | .cons k v t, fuel, rest => fun hf hr hw => by
      have hw2 : v.wfb = true ∧ t.wfb = true := by
        simp only [JsonObj.wfb, Bool.and_eq_true] at hw
        exact ⟨hw.1.2, hw.2⟩
      obtain ⟨hskip, hdig, hlen1⟩ := objMore_after t rest
      have hvlen := dump_len_pos v
      simp only [JsonObj.dumpMembers, List.length_cons, List.length_append] at hf
      obtain ⟨f2, rfl⟩ : ∃ f2, fuel = f2 + 2 := ⟨fuel - 2, by omega⟩
      have hd : JsonObj.dumpMembers (.cons k v t) ++ rest
          = '"' :: (escapeStr k.data ++ '"' :: ':' :: ' ' ::
              (Json.dumpChars v ++ (JsonObj.dumpMore t ++ rest))) := by
        simp [JsonObj.dumpMembers]
      rw [hd]
      rw [show f2 + 2 = (f2 + 1) + 1 by omega]
      rw [parseMembers]
      rw [if_neg (by decide), if_pos rfl]
      rw [parseMember_step k v t f2 rest
        (parseVal_dump v f2 _ (by omega) hdig hw2.1)
        (parseMembersMore_dump t f2 rest (by omega) hr hw2.2)]
      simp [JsonObj.toPairs]

theorem parseMembersMore_dump : ∀ (m : JsonObj) (fuel : Nat) (rest : List Char),
    (JsonObj.dumpMore m).length ≤ fuel → headIsDigit rest = false → m.wfb = true →
    parseMembersMore fuel (JsonObj.dumpMore m ++ rest) = some (m.toPairs, rest)
  | .nil, fuel, rest => fun hf hr _ => by
      simp only [JsonObj.dumpMore, List.length_cons, List.length_nil] at hf
      obtain ⟨f, rfl⟩ : ∃ f, fuel = f + 1 := ⟨fuel - 1, by omega⟩
      simp [JsonObj.dumpMore, parseMembersMore, JsonObj.toPairs]
  | .cons k v t, fuel, rest => fun hf hr hw => by
      have hw2 : v.wfb = true ∧ t.wfb = true := by
        simp only [JsonObj.wfb, Bool.and_eq_true] at hw
        exact ⟨hw.1.2, hw.2⟩
      obtain ⟨hskip, hdig, hlen1⟩ := objMore_after t rest
      have hvlen := dump_len_pos v
      simp only [JsonObj.dumpMore, List.length_cons, List.length_append] at hf
      obtain ⟨f2, rfl⟩ : ∃ f2, fuel = f2 + 2 := ⟨fuel - 2, by omega⟩
      have hd : JsonObj.dumpMore (.cons k v t) ++ rest
          = ',' :: ' ' :: '"' :: (escapeStr k.data ++ '"' :: ':' :: ' ' ::
              (Json.dumpChars v ++ (JsonObj.dumpMore t ++ rest))) := by
        simp [JsonObj.dumpMore]
      rw [hd]
      rw [show f2 + 2 = (f2 + 1) + 1 by omega]
      rw [parseMembersMore]
      rw [if_neg (by decide), if_pos rfl]
      rw [skipWs_space, skipWs_not_ws (by decide)]
      simp only [expectQuote, Option.bind]
      rw [parseMember_step k v t f2 rest
        (parseVal_dump v f2 _ (by omega) hdig hw2.1)
        (parseMembersMore_dump t f2 rest (by omega) hr hw2.2)]
      simp [JsonObj.toPairs]
end

/-- json.loads inverts json.dumps on well-formed values. -/
theorem loads_dumps (j : Json) (hw : j.wfb = true) : loads (Json.dumps j) = some j := by
  unfold loads Json.dumps
  have hdata : (String.mk j.dumpChars).data = j.dumpChars := rfl
  rw [hdata]
  have hskip : skipWs j.dumpChars = j.dumpChars := by
    have := skipWs_dump j []
    simpa using this
  rw [hskip]
  have hrt := parseVal_dump j (j.dumpChars.length + 1) [] (by omega) (by rfl) hw
  simp only [List.append_nil] at hrt
  simp [hrt, skipWs]

/-! ### IPC messages and framing (IPCMessage, StdioTransport.send,
StdioTransport._parse_message) -/

/-- The IPCMessage dataclass.  Field values are the Python attribute
values; Json.null stands for Python None (each optional field defaults to
None, and json.loads maps JSON null to None). -/
structure IPCMessage where
  id : Json
  type : Json
  command : Json
  args : Json
  payload : Json
  error : Json
deriving DecidableEq, Repr

/-- Conditionally include one dict member (the `if message.x:` guards in
StdioTransport.send). -/
def condMember (k : String) (b : Bool) (v : Json) (t : JsonObj) : JsonObj :=
  if b then .cons k v t else t

/-- The msg_dict built by StdioTransport.send: id and type always;
command, args and error only when truthy; payload only when not None. -/
def msgDict (m : IPCMessage) : JsonObj :=
  .cons "id" m.id (.cons "type" m.type
    (condMember "command" m.command.truthy m.command
      (condMember "args" m.args.truthy m.args
        (condMember "payload" (m.payload != Json.null) m.payload
          (condMember "error" m.error.truthy m.error .nil)))))

def markerLead : List Char := ("__COGNIA_IPC__" : String).data

def markerTail : List Char := ("__END__" : String).data

/-- StdioTransport.send: frame one message as one line (the trailing
newline is not part of the parsed line). -/
def serialize_message (m : IPCMessage) : String :=
  String.mk (markerLead ++ ((Json.obj (msgDict m)).dumpChars ++ markerTail))

/-- line.startswith("__COGNIA_IPC__") and line.endswith("__END__"). -/
def isFramed (line : String) : Bool :=
  markerLead.isPrefixOf line.data && markerTail.isSuffixOf line.data

inductive ParseFail where
  /-- json.loads raised JSONDecodeError. -/
  | jsonDecode
  /-- the parsed JSON value is not an object, so data.get raises
  AttributeError (caught by the read loop's generic handler). -/
  | notDict
deriving DecidableEq, Repr

/-- StdioTransport._parse_message: strip the markers when both are present
(line[14:-7]), otherwise json.loads the whole line; then read the message
fields with dict.get defaults. -/
def parse_message (line : String) : Except ParseFail IPCMessage :=
  let cs := line.data
  let body := if isFramed line then (cs.drop 14).take ((cs.drop 14).length - 7) else cs
  match loads (String.mk body) with
  | none => .error .jsonDecode
  | some (Json.obj o) =>
      .ok { id := (o.lookup "id").getD (.str "")
            type := (o.lookup "type").getD (.str "")
            command := (o.lookup "command").getD .null
            args := (o.lookup "args").getD .null
            payload := (o.lookup "payload").getD .null
            error := (o.lookup "error").getD .null }
  | some _ => .error .notDict

theorem msgDict_wfb (m : IPCMessage) (h1 : m.id.wfb = true) (h2 : m.type.wfb = true)
    (h3 : m.command.wfb = true) (h4 : m.args.wfb = true) (h5 : m.payload.wfb = true)
    (h6 : m.error.wfb = true) : (Json.obj (msgDict m)).wfb = true := by
  unfold msgDict condMember
  split_ifs <;>
    simp_all [Json.wfb, JsonObj.wfb, JsonObj.hasKey, JsonObj.lookup]

theorem msgDict_lookup_id (m : IPCMessage) : (msgDict m).lookup "id" = some m.id := by
  simp [msgDict, JsonObj.lookup]

theorem msgDict_lookup_type (m : IPCMessage) : (msgDict m).lookup "type" = some m.type := by
  simp [msgDict, JsonObj.lookup]

theorem msgDict_lookup_command (m : IPCMessage) :
    (msgDict m).lookup "command" =
      (if m.command.truthy = true then some m.command else none) := by
  unfold msgDict condMember
  split_ifs <;> simp_all [JsonObj.lookup]

theorem msgDict_lookup_args (m : IPCMessage) :
    (msgDict m).lookup "args" = (if m.args.truthy = true then some m.args else none) := by
  unfold msgDict condMember
  split_ifs <;> simp_all [JsonObj.lookup]

theorem msgDict_lookup_payload (m : IPCMessage) :
    (msgDict m).lookup "payload" =
      (if (m.payload != Json.null) = true then some m.payload else none) := by
  unfold msgDict condMember
  split_ifs <;> simp_all [JsonObj.lookup]

theorem msgDict_lookup_error (m : IPCMessage) :
    (msgDict m).lookup "error" = (if m.error.truthy = true then some m.error else none) := by
  unfold msgDict condMember
  split_ifs <;> simp_all [JsonObj.lookup]

theorem isFramed_serialize (m : IPCMessage) : isFramed (serialize_message m) = true := by
  unfold isFramed serialize_message
  have hp : markerLead.isPrefixOf
      (markerLead ++ ((Json.obj (msgDict m)).dumpChars ++ markerTail)) = true := by
    rw [List.isPrefixOf_iff_prefix]
    exact List.prefix_append _ _
  have hs : markerTail.isSuffixOf
      (markerLead ++ ((Json.obj (msgDict m)).dumpChars ++ markerTail)) = true := by
    rw [List.isSuffixOf_iff_suffix, ← List.append_assoc]
    exact List.suffix_append _ _
  simp only [String.data]
  rw [hp, hs]
  rfl

theorem strip_serialize (m : IPCMessage) :
    (((serialize_message m).data.drop 14).take
        (((serialize_message m).data.drop 14).length - 7))
      = (Json.obj (msgDict m)).dumpChars := by
  have hdata : (serialize_message m).data
      = markerLead ++ ((Json.obj (msgDict m)).dumpChars ++ markerTail) := rfl
  rw [hdata]
  have h14 : (markerLead ++ ((Json.obj (msgDict m)).dumpChars ++ markerTail)).drop 14
      = (Json.obj (msgDict m)).dumpChars ++ markerTail := by
    have : markerLead.length = 14 := rfl
    rw [← this, List.drop_left]
  rw [h14]
  have h7 : ((Json.obj (msgDict m)).dumpChars ++ markerTail).length - 7
      = (Json.obj (msgDict m)).dumpChars.length := by
    have : markerTail.length = 7 := rfl
    simp [List.length_append, this]
  rw [h7]
  exact List.take_left _ _

/-- Round trip of the framing layer: parsing the serialized line recovers
the message, provided command, args and error are each absent (None) or
truthy, and all field values have well-formed objects inside.  (A falsy
but present value — an empty args dict, an empty command or error string —
is dropped by send and read back as None.) -/
theorem parse_serialize (m : IPCMessage)
    (hw1 : m.id.wfb = true) (hw2 : m.type.wfb = true) (hw3 : m.command.wfb = true)
    (hw4 : m.args.wfb = true) (hw5 : m.payload.wfb = true) (hw6 : m.error.wfb = true)
    (hc : m.command.truthy = true ∨ m.command = .null)
    (ha : m.args.truthy = true ∨ m.args = .null)
    (he : m.error.truthy = true ∨ m.error = .null) :
    parse_message (serialize_message m) = .ok m := by
  have hl : loads (String.mk (Json.obj (msgDict m)).dumpChars) = some (Json.obj (msgDict m)) :=
    loads_dumps _ (msgDict_wfb m hw1 hw2 hw3 hw4 hw5 hw6)
  unfold parse_message
  simp only [isFramed_serialize, if_true, strip_serialize, hl]
  simp only [msgDict_lookup_id, msgDict_lookup_type, msgDict_lookup_command,
    msgDict_lookup_args, msgDict_lookup_payload, msgDict_lookup_error]
  obtain ⟨mi, mt, mc, ma, mp, me⟩ := m
  simp only [Except.ok.injEq, IPCMessage.mk.injEq]
  refine ⟨by simp, by simp, ?_, ?_, ?_, ?_⟩
  · rcases hc with h | h
    · simp only at h; simp [h]
    · simp only at h; subst h; simp [Json.truthy]
  · rcases ha with h | h
    · simp only at h; simp [h]
    · simp only at h; subst h; simp [Json.truthy]
  · by_cases hp : mp = Json.null
    · subst hp; simp
    · simp [hp]
  · rcases he with h | h
    · simp only at h; simp [h]
    · simp only at h; subst h; simp [Json.truthy]

/-! ### Transport state (StdioTransport) and the receive loop -/

/-- ipc.py class IPCError(Exception): a bare exception carrying only its
constructor argument (no kind tag, no code field). -/
structure IPCError where
  arg : Json
deriving DecidableEq, Repr

deriving instance DecidableEq for Except

/-- State of one asyncio future held in _pending_responses. -/
inductive FutureState where
  | pending
  | done (outcome : Except IPCError Json)
  | cancelled
deriving DecidableEq, Repr

/-- StdioTransport state: the connected flag, the _pending_responses dict
(keyed by message id) and the _event_handlers dict (keyed by event name;
handlers are identified by opaque numbers). -/
structure StdioState where
  connected : Bool
  pending_responses : List (Json × FutureState)
  event_handlers : List (Json × List Nat)
deriving DecidableEq, Repr

/-- StdioTransport.__init__. -/
def StdioState.init : StdioState := ⟨false, [], []⟩

/-- StdioTransport.connect (the reader task is the read_loop below). -/
def stdio_connect (s : StdioState) : StdioState := { s with connected := true }

/-- StdioTransport.disconnect: clears the flag and cancels the reader
task; pending futures and handler tables are untouched. -/
def stdio_disconnect (s : StdioState) : StdioState := { s with connected := false }

def dictGet {α : Type} : List (Json × α) → Json → Option α
  | [], _ => none
  | (k, v) :: t, key => if k = key then some v else dictGet t key

/-- dict.pop(key, None): the looked-up value (if any) and the dict with
that entry removed. -/
def dictPop {α : Type} : List (Json × α) → Json → Option α × List (Json × α)
  | [], _ => (none, [])
  | (k, v) :: t, key =>
      if k = key then (some v, t)
      else
        let p := dictPop t key
        (p.1, (k, v) :: p.2)

/-- dict assignment. -/
def dictSet {α : Type} : List (Json × α) → Json → α → List (Json × α)
  | [], key, v => [(key, v)]
  | (k, w) :: t, key, v => if k = key then (k, v) :: t else (k, w) :: dictSet t key v

/-- setdefault(key, []).append(handler). -/
def multiAdd {κ : Type} [DecidableEq κ] : List (κ × List Nat) → κ → Nat → List (κ × List Nat)
  | [], key, h => [(key, [h])]
  | (k, hs) :: t, key, h =>
      if k = key then (k, hs ++ [h]) :: t else (k, hs) :: multiAdd t key h

/-- StdioTransport.register_pending. -/
def register_pending (s : StdioState) (msg_id : String) : StdioState :=
  { s with pending_responses := dictSet s.pending_responses (.str msg_id) .pending }

/-- StdioTransport.add_event_handler (the returned unsubscribe closure is
not modelled). -/
def add_event_handler (s : StdioState) (event : String) (h : Nat) : StdioState :=
  { s with event_handlers := multiAdd s.event_handlers (.str event) h }

/-- Externally observable effects of one receive-loop iteration. -/
inductive RecvAction where
  /-- a pending future was resolved; the waiting invoke caller observes
  this payload or raises this IPCError. -/
  | settled (id : Json) (outcome : Except IPCError Json)
  /-- set_result / set_exception raised InvalidStateError (future already
  cancelled or done); the read loop logs it and continues. -/
  | invalidState (id : Json)
  | handlerCalled (h : Nat) (payload : Json)
  /-- json.JSONDecodeError: logged "Failed to parse IPC message". -/
  | parseFail (line : String)
  /-- any other exception: logged "Error in IPC read loop". -/
  | loopError (line : String)
deriving DecidableEq, Repr

/-- IPCError(message.error or "Unknown error"). -/
def errValue (m : IPCMessage) : Json :=
  if m.error.truthy then m.error else .str "Unknown error"

/-- StdioTransport._handle_message. -/
def handle_message (s : StdioState) (m : IPCMessage) : StdioState × List RecvAction :=
  if m.type = Json.str "response" ∨ m.type = Json.str "error" then
    let p := dictPop s.pending_responses m.id
    match p.1 with
    | none => ({ s with pending_responses := p.2 }, [])
    | some FutureState.pending =>
        if m.type = Json.str "error" then
          ({ s with pending_responses := p.2 }, [.settled m.id (.error ⟨errValue m⟩)])
        else
          ({ s with pending_responses := p.2 }, [.settled m.id (.ok m.payload)])
    | some _ => ({ s with pending_responses := p.2 }, [.invalidState m.id])
  else if m.type = Json.str "event" then
    let key := if m.command.truthy then m.command else Json.str ""
    let hs := (dictGet s.event_handlers key).getD []
    (s, hs.map (fun h => .handlerCalled h m.payload))
  else (s, [])

/-- One iteration of StdioTransport._read_loop on one received line. -/
def read_step (s : StdioState) (line : String) : StdioState × List RecvAction :=
  match parse_message line with
  | .ok m => handle_message s m
  | .error .jsonDecode => (s, [.parseFail line])
  | .error .notDict => (s, [.loopError line])

/-- StdioTransport._read_loop over a finite stream of lines (end of list =
EOF).  The `while self._connected` guard is checked before each read. -/
def read_loop : StdioState → List String → StdioState × List RecvAction
  | s, [] => (s, [])
  | s, line :: rest =>
      if s.connected then
        let p := read_step s line
        let q := read_loop p.1 rest
        (q.1, p.2 ++ q.2)
      else (s, [])

/-- The timeout path of TauriIPC.invoke: asyncio.wait_for cancels the
future on expiry and invoke raises IPCError(f"Command '...' timed out").
The _pending_responses entry is NOT removed. -/
def invoke_timeout (s : StdioState) (idJ : Json) (command : String) :
    StdioState × IPCError :=
  ({ s with pending_responses := dictSet s.pending_responses idJ .cancelled },
   ⟨Json.str ("Command '" ++ command ++ "' timed out")⟩)

/-! ### Client state (TauriIPC) -/

/-- IPCMode values relevant to transport selection. -/
inductive IPCMode where
  | subprocess
  | websocket
  | stdio
deriving DecidableEq, Repr

inductive TransportState where
  | noTransport
  | stdioT (s : StdioState)
  | mockT (connected : Bool)
deriving DecidableEq, Repr

def isStdio : TransportState → Bool
  | .stdioT _ => true
  | _ => false

/-- TauriIPC client state: its own connected flag, the owned transport,
the client's own _event_handlers dict (keyed by event name), and the
class-level message counter. -/
structure ClientState where
  connected : Bool
  transport : TransportState
  event_handlers : List (String × List Nat)
  msg_counter : Nat
deriving DecidableEq, Repr

def ClientState.init : ClientState := ⟨false, .noTransport, [], 0⟩

/-- The decimal f-string rendering f"msg_mc_sid". -/
def mkMsgId (c selfId : Nat) : List Char :=
  'm' :: 's' :: 'g' :: '_' :: (natDec c ++ '_' :: natDec selfId)

/-- TauriIPC._generate_id: increments the class counter and renders
f"msg_мcounter_мid(self)" (selfId stands for id(self)). -/
def generate_id (cl : ClientState) (selfId : Nat) : ClientState × String :=
  ({ cl with msg_counter := cl.msg_counter + 1 },
   String.mk (mkMsgId (cl.msg_counter + 1) selfId))

/-- TauriIPC.connect: no-op when connected; otherwise creates a fresh
StdioTransport for STDIO mode (MockTransport for every other mode) and
connects it. -/
def client_connect (cl : ClientState) (mode : IPCMode) : ClientState :=
  if cl.connected then cl
  else
    let t := if mode = IPCMode.stdio
      then TransportState.stdioT (stdio_connect StdioState.init)
      else TransportState.mockT true
    { cl with connected := true, transport := t }

/-- TauriIPC.disconnect: disconnects the transport (if any) and clears the
client flag; it settles no pending call. -/
def client_disconnect (cl : ClientState) : ClientState :=
  let t := match cl.transport with
    | .stdioT s => TransportState.stdioT (stdio_disconnect s)
    | .mockT _ => TransportState.mockT false
    | .noTransport => TransportState.noTransport
  { cl with connected := false, transport := t }

/-- TauriIPC.listen: always records the handler in the client's own
_event_handlers; additionally registers it with the transport only when
the transport is a StdioTransport. -/
def client_listen (cl : ClientState) (event : String) (h : Nat) : ClientState :=
  let cl2 := { cl with event_handlers := multiAdd cl.event_handlers event h }
  match cl2.transport with
  | .stdioT s => { cl2 with transport := .stdioT (add_event_handler s event h) }
  | _ => cl2

/-- Client-level operations for whole-run reasoning. -/
inductive ClientOp where
  | connect (mode : IPCMode)
  | disconnect
  | listen (event : String) (h : Nat)
  /-- one line received by the stdio read loop (a no-op unless the
  transport is a connected StdioTransport — no other receive path
  dispatches events). -/
  | recvLine (line : String)
deriving DecidableEq, Repr

def client_step (cl : ClientState) : ClientOp → ClientState × List RecvAction
  | .connect mode => (client_connect cl mode, [])
  | .disconnect => (client_disconnect cl, [])
  | .listen e h => (client_listen cl e h, [])
  | .recvLine line =>
      match cl.transport with
      | .stdioT s =>
          if s.connected then
            let p := read_step s line
            ({ cl with transport := .stdioT p.1 }, p.2)
          else (cl, [])
      | _ => (cl, [])

def client_run : ClientState → List ClientOp → ClientState × List RecvAction
  | cl, [] => (cl, [])
  | cl, op :: ops =>
      let p := client_step cl op
      let q := client_run p.1 ops
      (q.1, p.2 ++ q.2)

/-- Every listen of handler h in the run happens while the transport is
not a StdioTransport. -/
def listensOffline (h : Nat) : ClientState → List ClientOp → Bool
  | _, [] => true
  | cl, op :: ops =>
      (match op with
       | .listen _ h2 => !(h2 == h && isStdio cl.transport)
       | _ => true) && listensOffline h (client_step cl op).1 ops

/-- Handler h occurs nowhere in the stdio transport's handler table. -/
def stdioHandlerFree (h : Nat) : TransportState → Bool
  | .stdioT s => s.event_handlers.all (fun kv => kv.2.all (fun x => !(x == h)))
  | _ => true

/-! ### Dictionary lemmas -/

/-- Keys along one association list are pairwise distinct (always true of
a list modelling a Python dict). -/
def dictKeysUnique {α : Type} : List (Json × α) → Bool
  | [] => true
  | (k, _) :: t => (dictGet t k).isNone && dictKeysUnique t

theorem dictPop_get {α : Type} (key : Json) :
    ∀ l : List (Json × α), (dictPop l key).1 = dictGet l key := by
  intro l
  induction l with
  | nil => rfl
  | cons kv t ih =>
    obtain ⟨k, v⟩ := kv
    by_cases h : k = key
    · simp [dictPop, dictGet, h]
    · simp [dictPop, dictGet, h, ih]

theorem dictPop_absent {α : Type} (key : Json) :
    ∀ l : List (Json × α), dictGet l key = none → dictPop l key = (none, l) := by
  intro l
  induction l with
  | nil => intro _; rfl
  | cons kv t ih =>
    obtain ⟨k, v⟩ := kv
    intro h
    by_cases hk : k = key
    · simp [dictGet, hk] at h
    · simp only [dictGet, if_neg hk] at h
      simp [dictPop, hk, ih h]

theorem dictGet_pop_none {α : Type} (key : Json) :
    ∀ l : List (Json × α), dictKeysUnique l = true →
      dictGet (dictPop l key).2 key = none := by
  intro l
  induction l with
  | nil => intro _; rfl
  | cons kv t ih =>
    obtain ⟨k, v⟩ := kv
    intro hu
    simp only [dictKeysUnique, Bool.and_eq_true, Option.isNone_iff_eq_none] at hu
    by_cases hk : k = key
    · subst hk
      simp [dictPop, hu.1]
    · simp [dictPop, hk, dictGet, ih hu.2]

theorem dictGet_set_self {α : Type} (key : Json) (v : α) :
    ∀ l : List (Json × α), dictGet (dictSet l key v) key = some v := by
  intro l
  induction l with
  | nil => simp [dictSet, dictGet]
  | cons kv t ih =>
    obtain ⟨k, w⟩ := kv
    by_cases hk : k = key
    · simp [dictSet, dictGet, hk]
    · simp [dictSet, dictGet, hk, ih]

theorem dictGet_set_other {α : Type} (key key2 : Json) (v : α) (hne : key ≠ key2) :
    ∀ l : List (Json × α), dictGet (dictSet l key v) key2 = dictGet l key2 := by
  intro l
  induction l with
  | nil => simp [dictSet, dictGet, hne]
  | cons kv t ih =>
    obtain ⟨k, w⟩ := kv
    by_cases hk : k = key
    · subst hk; simp [dictSet, dictGet, hne, ih]
    · simp [dictSet, dictGet, hk, ih]

theorem dictKeysUnique_set {α : Type} (key : Json) (v : α) :
    ∀ l : List (Json × α), dictKeysUnique l = true →
      dictKeysUnique (dictSet l key v) = true := by
  intro l
  induction l with
  | nil => intro _; simp [dictSet, dictKeysUnique, dictGet]
  | cons kv t ih =>
    obtain ⟨k, w⟩ := kv
    intro hu
    simp only [dictKeysUnique, Bool.and_eq_true, Option.isNone_iff_eq_none] at hu
    by_cases hk : k = key
    · subst hk
      simp [dictSet, dictKeysUnique, hu.1, hu.2]
    · simp only [dictSet, if_neg hk, dictKeysUnique, Bool.and_eq_true,
        Option.isNone_iff_eq_none]
      refine ⟨?_, ih hu.2⟩
      rw [dictGet_set_other key k v (fun e => hk e.symm) t, hu.1]

theorem dictGet_mem {α : Type} (key : Json) (v : α) :
    ∀ l : List (Json × α), dictGet l key = some v → (key, v) ∈ l := by
  intro l
  induction l with
  | nil => intro h; simp [dictGet] at h
  | cons kv t ih =>
    obtain ⟨k, w⟩ := kv
    intro h
    by_cases hk : k = key
    · subst hk
      rw [dictGet, if_pos rfl] at h
      injection h with h
      subst h; simp
    · simp only [dictGet, if_neg hk] at h
      simp [ih h]

/-! ### handle_message characterizations -/

/-- A response frame carrying just an id and payload. -/
def responseMsg (id payload : Json) : IPCMessage :=
  ⟨id, .str "response", .null, .null, payload, .null⟩

/-- An error frame carrying just an id and error value. -/
def errorMsg (id err : Json) : IPCMessage :=
  ⟨id, .str "error", .null, .null, .null, err⟩

/-- An event frame carrying a topic and payload. -/
def eventMsg (topic : String) (payload : Json) : IPCMessage :=
  ⟨.str "", .str "event", .str topic, .null, payload, .null⟩

theorem handle_response_pending (s : StdioState) (id p : Json)
    (h : dictGet s.pending_responses id = some .pending) :
    handle_message s (responseMsg id p)
      = ({ s with pending_responses := (dictPop s.pending_responses id).2 },
         [.settled id (.ok p)]) := by
  unfold handle_message responseMsg
  rw [if_pos (Or.inl rfl)]
  simp [dictPop_get, h]

theorem handle_error_pending (s : StdioState) (id err : Json)
    (h : dictGet s.pending_responses id = some .pending) :
    handle_message s (errorMsg id err)
      = ({ s with pending_responses := (dictPop s.pending_responses id).2 },
         [.settled id (.error ⟨errValue (errorMsg id err)⟩)]) := by
  unfold handle_message errorMsg
  rw [if_pos (Or.inr rfl)]
  simp [dictPop_get, h]

theorem handle_cancelled (s : StdioState) (id p : Json)
    (h : dictGet s.pending_responses id = some .cancelled) :
    handle_message s (responseMsg id p)
      = ({ s with pending_responses := (dictPop s.pending_responses id).2 },
         [.invalidState id]) := by
  unfold handle_message responseMsg
  rw [if_pos (Or.inl rfl)]
  simp [dictPop_get, h]

theorem handle_absent (s : StdioState) (m : IPCMessage)
    (ht : m.type = Json.str "response" ∨ m.type = Json.str "error")
    (h : dictGet s.pending_responses m.id = none) :
    handle_message s m = (s, []) := by
  unfold handle_message
  rw [if_pos ht]
  simp [dictPop_get, h, dictPop_absent m.id s.pending_responses h]

theorem handle_event (s : StdioState) (topic : String) (payload : Json) :
    handle_message s (eventMsg topic payload)
      = (s, ((dictGet s.event_handlers (.str topic)).getD []).map
          (fun h => .handlerCalled h payload)) := by
  unfold handle_message eventMsg
  rw [if_neg (by simp), if_pos rfl]
  by_cases h : topic = ""
  · subst h; simp [Json.truthy]
  · simp [Json.truthy, h]

theorem handle_message_state (s : StdioState) (m : IPCMessage) :
    (handle_message s m).1.connected = s.connected ∧
    (handle_message s m).1.event_handlers = s.event_handlers := by
  unfold handle_message
  by_cases h1 : m.type = Json.str "response" ∨ m.type = Json.str "error"
  · rw [if_pos h1]
    cases hp : (dictPop s.pending_responses m.id).1 with
    | none => simp [hp]
    | some f => cases f <;> simp [hp] <;> split_ifs <;> simp
  · rw [if_neg h1]
    split_ifs <;> simp

theorem handle_message_pending_pop (s : StdioState) (m : IPCMessage)
    (ht : m.type = Json.str "response" ∨ m.type = Json.str "error") :
    (handle_message s m).1.pending_responses = (dictPop s.pending_responses m.id).2 := by
  unfold handle_message
  rw [if_pos ht]
  cases hp : (dictPop s.pending_responses m.id).1 with
  | none => simp [hp]
  | some f => cases f <;> simp [hp] <;> split_ifs <;> simp

theorem handle_message_act_mem (s : StdioState) (m : IPCMessage) (a : RecvAction)
    (ha : a ∈ (handle_message s m).2) :
    (∃ o, a = .settled m.id o) ∨ (a = .invalidState m.id) ∨
    (∃ h2 hs, a = .handlerCalled h2 m.payload ∧
      dictGet s.event_handlers (if m.command.truthy then m.command else .str "") = some hs ∧
      h2 ∈ hs) := by
  unfold handle_message at ha
  by_cases h1 : m.type = Json.str "response" ∨ m.type = Json.str "error"
  · rw [if_pos h1] at ha
    cases hp : (dictPop s.pending_responses m.id).1 with
    | none => simp [hp] at ha
    | some f =>
      cases f with
      | pending =>
        simp only [hp] at ha
        split_ifs at ha <;> simp only [List.mem_singleton] at ha <;>
          exact Or.inl ⟨_, ha⟩
      | done o =>
        simp only [hp] at ha
        simp only [List.mem_singleton] at ha
        exact Or.inr (Or.inl ha)
      | cancelled =>
        simp only [hp] at ha
        simp only [List.mem_singleton] at ha
        exact Or.inr (Or.inl ha)
  · rw [if_neg h1] at ha
    by_cases h2 : m.type = Json.str "event"
    · rw [if_pos h2] at ha
      cases hget : dictGet s.event_handlers
          (if m.command.truthy = true then m.command else Json.str "") with
      | none => simp [hget] at ha
      | some hs =>
        simp only [hget, Option.getD_some, List.mem_map] at ha
        obtain ⟨h3, hh3, rfl⟩ := ha
        exact Or.inr (Or.inr ⟨h3, hs, rfl, rfl, hh3⟩)
    · rw [if_neg h2] at ha
      simp at ha

/-! ### Correlation-id freshness support -/

theorem mkMsgId_inj {c1 c2 sid : Nat} (h : mkMsgId c1 sid = mkMsgId c2 sid) : c1 = c2 := by
  unfold mkMsgId at h
  simp only [List.cons.injEq, true_and] at h
  have := digits_sep_split (natDec c1) (natDec c2) (natDec sid) (natDec sid) '_'
    (natDec_all_digits c1) (natDec_all_digits c2) (by decide) h
  exact natDec_injective this.1

/-- Iterated _generate_id calls: the client state after n calls and the n
ids produced, in order. -/
def generate_many : ClientState → Nat → Nat → ClientState × List String
  | cl, _, 0 => (cl, [])
  | cl, sid, k + 1 =>
      let p := generate_id cl sid
      let q := generate_many p.1 sid k
      (q.1, p.2 :: q.2)

theorem generate_many_mem (sid : Nat) :
    ∀ (n : Nat) (cl : ClientState), ∀ x ∈ (generate_many cl sid n).2,
      ∃ c, cl.msg_counter < c ∧ x = String.mk (mkMsgId c sid) := by
  intro n
  induction n with
  | zero => intro cl x hx; simp [generate_many] at hx
  | succ k ih =>
    intro cl x hx
    simp only [generate_many, List.mem_cons] at hx
    rcases hx with rfl | hx
    · exact ⟨cl.msg_counter + 1, by omega, rfl⟩
    · obtain ⟨c, hc, rfl⟩ := ih (generate_id cl sid).1 x hx
      refine ⟨c, ?_, rfl⟩
      simp only [generate_id] at hc
      omega

theorem generate_many_distinct (sid : Nat) :
    ∀ (n : Nat) (cl : ClientState),
      (generate_many cl sid n).2.Pairwise (fun a b => a ≠ b) := by
  intro n
  induction n with
  | zero => intro cl; simp [generate_many]
  | succ k ih =>
    intro cl
    simp only [generate_many, List.pairwise_cons]
    refine ⟨?_, ih (generate_id cl sid).1⟩
    intro y hy he
    obtain ⟨c, hc, rfl⟩ := generate_many_mem sid k (generate_id cl sid).1 y hy
    simp only [generate_id] at hc
    have : cl.msg_counter + 1 = c := by
      have h2 : mkMsgId (cl.msg_counter + 1) sid = mkMsgId c sid := by
        have := congrArg String.data he
        simpa [generate_id] using this
      exact mkMsgId_inj h2
    omega

/-! ### Offline-listener support -/

theorem multiAdd_free {κ : Type} [DecidableEq κ] (key : κ) (h2 h : Nat) (hne : h2 ≠ h) :
    ∀ l : List (κ × List Nat),
      l.all (fun kv => kv.2.all (fun x => !(x == h))) = true →
      (multiAdd l key h2).all (fun kv => kv.2.all (fun x => !(x == h))) = true := by
  intro l
  induction l with
  | nil =>
    intro _
    simp [multiAdd, List.all, hne]
  | cons kv t ih =>
    obtain ⟨k, hs⟩ := kv
    intro hall
    simp only [List.all_cons, Bool.and_eq_true] at hall
    by_cases hk : k = key
    · subst hk
      simp only [multiAdd, if_pos rfl]
      simp [List.all_cons, List.all_append, hall.1, hall.2, hne]
    · simp only [multiAdd, if_neg hk, List.all_cons, Bool.and_eq_true]
      exact ⟨hall.1, ih hall.2⟩

theorem read_step_state (s : StdioState) (line : String) :
    (read_step s line).1.connected = s.connected ∧
    (read_step s line).1.event_handlers = s.event_handlers := by
  unfold read_step
  cases h : parse_message line with
  | ok m => simpa [h] using handle_message_state s m
  | error e => cases e <;> simp [h]

theorem handle_calls_free (s : StdioState) (m : IPCMessage) (h : Nat) (p : Json)
    (hfree : stdioHandlerFree h (.stdioT s) = true) :
    RecvAction.handlerCalled h p ∉ (handle_message s m).2 := by
  intro hmem
  rcases handle_message_act_mem s m _ hmem with ⟨_, he⟩ | he | ⟨h2, hs, he, hget, hin⟩
  · cases he
  · cases he
  · injection he with he1 he2
    subst he1
    have hmem2 := dictGet_mem _ _ _ hget
    simp only [stdioHandlerFree, List.all_eq_true] at hfree
    have := hfree _ hmem2
    simp only [List.all_eq_true] at this
    have := this h hin
    simp at this

theorem read_step_calls_free (s : StdioState) (line : String) (h : Nat) (p : Json)
    (hfree : stdioHandlerFree h (.stdioT s) = true) :
    RecvAction.handlerCalled h p ∉ (read_step s line).2 := by
  unfold read_step
  cases hp : parse_message line with
  | ok m => exact handle_calls_free s m h p hfree
  | error e => cases e <;> simp

theorem client_step_preserves_free (h : Nat) (cl : ClientState) (op : ClientOp)
    (hfree : stdioHandlerFree h cl.transport = true)
    (hoff : (match op with
             | ClientOp.listen _ h2 => !(h2 == h && isStdio cl.transport)
             | _ => true) = true) :
    stdioHandlerFree h (client_step cl op).1.transport = true := by
  cases op with
  | connect mode =>
    simp only [client_step, client_connect]
    split_ifs with h1 h2
    · exact hfree
    · simp [stdioHandlerFree, stdio_connect, StdioState.init]
    · simp [stdioHandlerFree]
  | disconnect =>
    simp only [client_step, client_disconnect]
    cases ht : cl.transport with
    | stdioT s =>
      rw [ht] at hfree
      simpa [stdioHandlerFree, stdio_disconnect] using hfree
    | mockT b => simp [stdioHandlerFree]
    | noTransport => simp [stdioHandlerFree]
  | listen e h2 =>
    simp only [client_step, client_listen]
    cases ht : cl.transport with
    | stdioT s =>
      rw [ht] at hfree hoff
      simp only [isStdio, Bool.and_true, Bool.not_eq_true', beq_eq_false_iff_ne] at hoff
      simpa [stdioHandlerFree, add_event_handler] using
        multiAdd_free (Json.str e) h2 h hoff s.event_handlers
          (by simpa [stdioHandlerFree] using hfree)
    | mockT b => simp [ht, stdioHandlerFree]
    | noTransport => simp [ht, stdioHandlerFree]
  | recvLine line =>
    cases ht : cl.transport with
    | stdioT s =>
      rw [ht] at hfree
      by_cases h1 : s.connected = true
      · have hstep : (client_step cl (ClientOp.recvLine line)).1
            = { cl with transport := .stdioT (read_step s line).1 } := by
          simp [client_step, ht, h1]
        rw [hstep]
        have h2 := (read_step_state s line).2
        simp only [stdioHandlerFree] at hfree ⊢
        rw [h2]
        exact hfree
      · have hstep : (client_step cl (ClientOp.recvLine line)).1 = cl := by
          simp [client_step, ht, h1]
        rw [hstep, ht]
        simpa [stdioHandlerFree] using hfree
    | mockT b =>
      have hstep : (client_step cl (ClientOp.recvLine line)).1 = cl := by
        simp [client_step, ht]
      rw [hstep, ht]
      simp [stdioHandlerFree]
    | noTransport =>
      have hstep : (client_step cl (ClientOp.recvLine line)).1 = cl := by
        simp [client_step, ht]
      rw [hstep, ht]
      simp [stdioHandlerFree]

theorem client_run_calls_free (h : Nat) :
    ∀ (ops : List ClientOp) (cl : ClientState),
      stdioHandlerFree h cl.transport = true →
      listensOffline h cl ops = true →
      ∀ p, RecvAction.handlerCalled h p ∉ (client_run cl ops).2 := by
  intro ops
  induction ops with
  | nil => intro cl _ _ p hmem; simp [client_run] at hmem
  | cons op rest ih =>
    intro cl hfree hoff p hmem
    simp only [listensOffline, Bool.and_eq_true] at hoff
    simp only [client_run, List.mem_append] at hmem
    rcases hmem with hmem | hmem
    · cases op with
      | connect mode => simp [client_step] at hmem
      | disconnect => simp [client_step] at hmem
      | listen e h2 => simp [client_step] at hmem
      | recvLine line =>
        simp only [client_step] at hmem
        cases ht : cl.transport with
        | stdioT s =>
          rw [ht] at hmem hfree
          by_cases h1 : s.connected = true
          · simp only [h1, if_true] at hmem
            exact read_step_calls_free s line h p hfree hmem
          · simp only [Bool.not_eq_true] at h1
            simp [h1] at hmem
        | mockT b => rw [ht] at hmem; simp at hmem
        | noTransport => rw [ht] at hmem; simp at hmem
    · exact ih (client_step cl op).1
        (client_step_preserves_free h cl op hfree hoff.1) hoff.2 p hmem

/-! ### Claim theorems -/

/-- C1 (amended): framing round-trip holds for every valid Message (non-empty
string id, kind one of invoke/event/response/error, command and error absent
or strings, args absent or a map, any payload, objects inside args/payload
with distinct keys) PROVIDED command, args and error are each absent (None)
or truthy: parse(serialize(m)) = m with all six fields preserved.  The claim
as frozen is false: StdioTransport.send drops every falsy optional field
(`if message.args:` etc.), so an invoke Message with args = empty map comes
back with args = None, not the empty map (see the counterexample). -/
theorem C1_framing_roundtrip (m : IPCMessage) (idStr : String)
    (hid : m.id = .str idStr) (hid2 : idStr ≠ "")
    (hkind : m.type = .str "invoke" ∨ m.type = .str "event" ∨
      m.type = .str "response" ∨ m.type = .str "error")
    (hcmd : m.command = .null ∨ ∃ c, m.command = .str c)
    (hargs : m.args = .null ∨ ∃ o, m.args = .obj o)
    (herr : m.error = .null ∨ ∃ e, m.error = .str e)
    (hwargs : m.args.wfb = true) (hwpay : m.payload.wfb = true)
    (hct : m.command.truthy = true ∨ m.command = .null)
    (hat : m.args.truthy = true ∨ m.args = .null)
    (het : m.error.truthy = true ∨ m.error = .null) :
    parse_message (serialize_message m) = .ok m := by
  apply parse_serialize
  · rw [hid]; simp [Json.wfb]
  · rcases hkind with h | h | h | h <;> rw [h] <;> simp [Json.wfb]
  · rcases hcmd with h | ⟨c, h⟩ <;> rw [h] <;> simp [Json.wfb]
  · exact hwargs
  · exact hwpay
  · rcases herr with h | ⟨e, h⟩ <;> rw [h] <;> simp [Json.wfb]
  · exact hct
  · exact hat
  · exact het

/-- Witness for C1: a concrete invoke message with one non-empty args entry
round-trips. -/
theorem C1_framing_roundtrip_witness :
    parse_message (serialize_message
        ⟨.str "a", .str "invoke", .str "ping", .obj (.cons "x" (.bool true) .nil),
          .null, .null⟩)
      = .ok ⟨.str "a", .str "invoke", .str "ping", .obj (.cons "x" (.bool true) .nil),
          .null, .null⟩ :=
  C1_framing_roundtrip _ "a" rfl (by decide) (Or.inl rfl) (Or.inr ⟨"ping", rfl⟩)
    (Or.inr ⟨_, rfl⟩) (Or.inl rfl) (by decide) (by decide) (Or.inl (by decide))
    (Or.inl (by decide)) (Or.inr rfl)

/-- Counterexample to C1 as frozen: the invoke Message with empty args map
does not round-trip (args comes back as None). -/
theorem C1_counterexample :
    parse_message (serialize_message
        ⟨.str "a", .str "invoke", .str "ping", .obj .nil, .null, .null⟩)
      ≠ .ok ⟨.str "a", .str "invoke", .str "ping", .obj .nil, .null, .null⟩ := by
  decide

/-- C7 (amended): a line without the frame markers is NOT skipped as
non-protocol noise: _parse_message falls back to json.loads on the whole
line, so a marker-less line that is valid JSON produces a Message (see the
counterexample); only a marker-less line that fails JSON parsing is logged
and discarded, and in both cases the connection is not failed (the read
loop keeps running on the remaining lines). -/
theorem C7_noise_lines (line : String) (s : StdioState) (rest : List String)
    (hf : isFramed line = false) (hl : loads line = none) (hc : s.connected = true) :
    parse_message line = .error .jsonDecode ∧
    read_step s line = (s, [.parseFail line]) ∧
    read_loop s (line :: rest)
      = ((read_loop s rest).1, .parseFail line :: (read_loop s rest).2) := by
  have hp : parse_message line = .error .jsonDecode := by
    unfold parse_message
    rw [hf]
    simp [stringMk_data, hl]
  have hs : read_step s line = (s, [.parseFail line]) := by
    unfold read_step
    rw [hp]
  refine ⟨hp, hs, ?_⟩
  rw [read_loop, if_pos hc, hs]
  simp

/-- Witness for C7: a concrete unparseable marker-less line is logged and
the loop continues. -/
theorem C7_noise_lines_witness :
    parse_message "oops" = .error .jsonDecode ∧
    read_step ⟨true, [], []⟩ "oops" = (⟨true, [], []⟩, [.parseFail "oops"]) ∧
    read_loop ⟨true, [], []⟩ ["oops"]
      = ((read_loop (⟨true, [], []⟩ : StdioState) []).1,
         .parseFail "oops" :: (read_loop (⟨true, [], []⟩ : StdioState) []).2) :=
  C7_noise_lines "oops" ⟨true, [], []⟩ [] (by decide) (by decide) rfl

/-- Counterexample to C7 as frozen: a marker-less line that is valid JSON is
not treated as noise — it produces a Message. -/
theorem C7_counterexample :
    isFramed "\x7b\"id\": \"a\", \"type\": \"response\"\x7d" = false ∧
    parse_message "\x7b\"id\": \"a\", \"type\": \"response\"\x7d"
      = .ok ⟨.str "a", .str "response", .null, .null, .null, .null⟩ := by
  decide


/-- C2 (amended): when the configured timeout elapses, invoke raises
IPCError "Command '...' timed out" and asyncio.wait_for cancels the future,
but — contrary to the frozen claim — the PendingCall entry is NOT removed
from _pending_responses: a later response frame carrying that id is not an
orphan; it still finds the entry, pops it, and set_result on the cancelled
future raises InvalidStateError, which the read loop logs; only then is
the entry gone. -/
theorem C2_timeout_entry_remains (s : StdioState) (idJ : Json) (cmd : String) (p : Json)
    (hu : dictKeysUnique s.pending_responses = true)
    (h : dictGet s.pending_responses idJ = some .pending) :
    (invoke_timeout s idJ cmd).2 = ⟨.str ("Command '" ++ cmd ++ "' timed out")⟩ ∧
    dictGet (invoke_timeout s idJ cmd).1.pending_responses idJ = some .cancelled ∧
    handle_message (invoke_timeout s idJ cmd).1 (responseMsg idJ p)
      = ({ (invoke_timeout s idJ cmd).1 with pending_responses :=
            (dictPop (invoke_timeout s idJ cmd).1.pending_responses idJ).2 },
         [.invalidState idJ]) ∧
    dictGet (handle_message (invoke_timeout s idJ cmd).1
        (responseMsg idJ p)).1.pending_responses idJ = none := by
  have hset : dictGet (invoke_timeout s idJ cmd).1.pending_responses idJ
      = some .cancelled := by
    simpa [invoke_timeout] using dictGet_set_self idJ FutureState.cancelled s.pending_responses
  refine ⟨rfl, hset, handle_cancelled _ idJ p hset, ?_⟩
  rw [handle_cancelled _ idJ p hset]
  have hu2 : dictKeysUnique (invoke_timeout s idJ cmd).1.pending_responses = true := by
    simpa [invoke_timeout] using dictKeysUnique_set idJ FutureState.cancelled s.pending_responses hu
  exact dictGet_pop_none idJ _ hu2

/-- Witness for C2: after registering and timing out one call, the entry is
still in the table (cancelled, not removed). -/
theorem C2_timeout_entry_remains_witness :
    dictKeysUnique [(Json.str "msg_1_7", FutureState.pending)] = true ∧
    dictGet [(Json.str "msg_1_7", FutureState.pending)] (Json.str "msg_1_7")
      = some FutureState.pending ∧
    dictGet (invoke_timeout ⟨true, [(Json.str "msg_1_7", FutureState.pending)], []⟩
        (Json.str "msg_1_7") "ping").1.pending_responses (Json.str "msg_1_7")
      = some FutureState.cancelled :=
  ⟨by decide, by decide,
    (C2_timeout_entry_remains ⟨true, [(Json.str "msg_1_7", FutureState.pending)], []⟩
      (Json.str "msg_1_7") "ping" Json.null (by decide) (by decide)).2.1⟩

/-- Counterexample to C2 as frozen: right after the timeout path runs, the
pending-call table still holds the id (so a later response with that id
does find a pending entry, rather than being an orphan). -/
theorem C2_counterexample :
    dictGet (invoke_timeout (register_pending (stdio_connect StdioState.init) "msg_1_7")
        (Json.str "msg_1_7") "ping").1.pending_responses (Json.str "msg_1_7")
      = some FutureState.cancelled ∧
    dictGet (invoke_timeout (register_pending (stdio_connect StdioState.init) "msg_1_7")
        (Json.str "msg_1_7") "ping").1.pending_responses (Json.str "msg_1_7") ≠ none := by
  decide

/-- C3 (amended): disconnect() settles nothing: TauriIPC.disconnect stops
the receive loop (the transport's connected flag is cleared and the reader
task cancelled) and marks the client disconnected, but every PendingCall
entry and its future state are left exactly as they were — no call is
settled with a Disconnected (or any) error by disconnect; a waiting caller
is released only when its own invoke timeout later expires. -/
theorem C3_disconnect_settles_nothing (cl : ClientState) (s : StdioState)
    (h : cl.transport = .stdioT s) :
    (client_disconnect cl).connected = false ∧
    (client_disconnect cl).transport
      = .stdioT ⟨false, s.pending_responses, s.event_handlers⟩ := by
  unfold client_disconnect
  rw [h]
  simp [stdio_disconnect]

/-- Witness for C3 at a client with one pending call. -/
theorem C3_disconnect_settles_nothing_witness :
    (client_disconnect ⟨true, .stdioT ⟨true, [(Json.str "a", FutureState.pending)], []⟩,
        [], 1⟩).connected = false ∧
    (client_disconnect ⟨true, .stdioT ⟨true, [(Json.str "a", FutureState.pending)], []⟩,
        [], 1⟩).transport
      = .stdioT ⟨false, [(Json.str "a", FutureState.pending)], []⟩ :=
  C3_disconnect_settles_nothing _ _ rfl

/-- Counterexample to C3 as frozen: with 3 pending calls, after disconnect()
all 3 entries are still pending — none was settled with a Disconnected
error. -/
theorem C3_counterexample :
    (client_disconnect ⟨true, .stdioT ⟨true,
        [(Json.str "a", FutureState.pending), (Json.str "b", FutureState.pending),
         (Json.str "c", FutureState.pending)], []⟩, [], 3⟩).transport
      = .stdioT ⟨false,
        [(Json.str "a", FutureState.pending), (Json.str "b", FutureState.pending),
         (Json.str "c", FutureState.pending)], []⟩ := by
  decide

/-- C9 (amended): every settlement failure delivered by the receive loop is
the bare exception IPCError(message.error or "Unknown error") produced on
the error-frame path, and the timeout path raises
IPCError(f"Command '...' timed out"); IPCError carries only a message
value — it has no kind tag and no code field, so a host error and a local
timeout with the same text are the very same value (see the
counterexample). -/
theorem C9_untagged_errors (s : StdioState) (m : IPCMessage) (idJ : Json)
    (e : IPCError) (cmd : String) :
    (RecvAction.settled idJ (.error e) ∈ (handle_message s m).2 →
      m.type = .str "error" ∧ idJ = m.id ∧ e = ⟨errValue m⟩) ∧
    (invoke_timeout s idJ cmd).2 = ⟨.str ("Command '" ++ cmd ++ "' timed out")⟩ := by
  constructor
  · intro hmem
    unfold handle_message at hmem
    by_cases h1 : m.type = Json.str "response" ∨ m.type = Json.str "error"
    · rw [if_pos h1] at hmem
      cases hp : (dictPop s.pending_responses m.id).1 with
      | none => simp [hp] at hmem
      | some f =>
        cases f with
        | pending =>
          simp only [hp] at hmem
          by_cases h2 : m.type = Json.str "error"
          · rw [if_pos h2] at hmem
            simp only [List.mem_singleton, RecvAction.settled.injEq,
              Except.error.injEq] at hmem
            exact ⟨h2, hmem.1, hmem.2⟩
          · rw [if_neg h2] at hmem
            simp at hmem
        | done o => simp [hp] at hmem
        | cancelled => simp [hp] at hmem
    · rw [if_neg h1] at hmem
      by_cases h2 : m.type = Json.str "event"
      · rw [if_pos h2] at hmem
        simp [List.mem_map] at hmem
      · rw [if_neg h2] at hmem
        simp at hmem
  · rfl

/-- Witness for C9: an error frame settles the pending call with exactly
IPCError(frame error value). -/
theorem C9_untagged_errors_witness :
    RecvAction.settled (Json.str "b") (.error ⟨Json.str "x"⟩)
        ∈ (handle_message ⟨true, [(Json.str "b", FutureState.pending)], []⟩
            (errorMsg (Json.str "b") (Json.str "x"))).2 ∧
    ((errorMsg (Json.str "b") (Json.str "x")).type = Json.str "error" ∧
      Json.str "b" = (errorMsg (Json.str "b") (Json.str "x")).id ∧
      (⟨Json.str "x"⟩ : IPCError) = ⟨errValue (errorMsg (Json.str "b") (Json.str "x"))⟩) :=
  ⟨by decide,
    (C9_untagged_errors ⟨true, [(Json.str "b", FutureState.pending)], []⟩
      (errorMsg (Json.str "b") (Json.str "x")) (Json.str "b") ⟨Json.str "x"⟩ "c").1
      (by decide)⟩

/-- Counterexample to C9 as frozen: a local timeout and a host error frame
with the same text produce identical IPCError values — the error carries no
kind in {HostError, Timeout, Disconnected, FramingError} and no code;
nothing in the value distinguishes the two failure kinds. -/
theorem C9_counterexample :
    (invoke_timeout ⟨true, [(Json.str "a", FutureState.pending)], []⟩
        (Json.str "a") "ping").2
      = ⟨Json.str "Command 'ping' timed out"⟩ ∧
    (handle_message ⟨true, [(Json.str "b", FutureState.pending)], []⟩
        (errorMsg (Json.str "b") (Json.str "Command 'ping' timed out"))).2
      = [.settled (Json.str "b") (.error ⟨Json.str "Command 'ping' timed out"⟩)] := by
  decide


/-- C4 (confirmed): at-most-one settlement — when the receive loop settles
a pending call, whether from a response frame (delivering its payload) or
from an error frame (delivering IPCError(message.error or "Unknown
error")), the entry is removed from _pending_responses, and any subsequent
response or error frame carrying the same id is a no-op: the transport
state is unchanged and no action is produced, so nothing is raised into
any caller and the already-delivered result cannot change. -/
theorem C4_at_most_one_settlement (s : StdioState) (id p p2 : Json) (m1 m2 : IPCMessage)
    (hu : dictKeysUnique s.pending_responses = true)
    (h : dictGet s.pending_responses id = some .pending)
    (hm1 : m1 = responseMsg id p ∨ m1 = errorMsg id p)
    (hm2 : m2 = responseMsg id p2 ∨ m2 = errorMsg id p2) :
    (handle_message s m1).2
      = [.settled id (if m1.type = Json.str "error"
          then .error ⟨errValue m1⟩ else .ok m1.payload)] ∧
    dictGet (handle_message s m1).1.pending_responses id = none ∧
    handle_message (handle_message s m1).1 m2 = ((handle_message s m1).1, []) := by
  have hnone : dictGet (dictPop s.pending_responses id).2 id = none :=
    dictGet_pop_none id _ hu
  have htail : handle_message ({ s with pending_responses :=
        (dictPop s.pending_responses id).2 } : StdioState) m2
      = (({ s with pending_responses := (dictPop s.pending_responses id).2 } : StdioState),
         []) := by
    apply handle_absent
    · rcases hm2 with rfl | rfl
      · exact Or.inl rfl
      · exact Or.inr rfl
    · rcases hm2 with rfl | rfl <;> exact hnone
  rcases hm1 with rfl | rfl
  · rw [handle_response_pending s id p h]
    exact ⟨by simp [responseMsg], hnone, htail⟩
  · rw [handle_error_pending s id p h]
    exact ⟨by simp [errorMsg], hnone, htail⟩

/-- Witness for C4 at a table with one pending call, settled by an error
frame and then hit by a duplicate response frame. -/
theorem C4_at_most_one_settlement_witness :
    (handle_message ⟨true, [(Json.str "a", FutureState.pending)], []⟩
        (errorMsg (Json.str "a") (Json.str "boom"))).2
      = [.settled (Json.str "a")
          (if (errorMsg (Json.str "a") (Json.str "boom")).type = Json.str "error"
           then .error ⟨errValue (errorMsg (Json.str "a") (Json.str "boom"))⟩
           else .ok (errorMsg (Json.str "a") (Json.str "boom")).payload)] ∧
    dictGet (handle_message ⟨true, [(Json.str "a", FutureState.pending)], []⟩
        (errorMsg (Json.str "a") (Json.str "boom"))).1.pending_responses (Json.str "a")
      = none ∧
    handle_message (handle_message ⟨true, [(Json.str "a", FutureState.pending)], []⟩
        (errorMsg (Json.str "a") (Json.str "boom"))).1
        (responseMsg (Json.str "a") (Json.bool false))
      = ((handle_message ⟨true, [(Json.str "a", FutureState.pending)], []⟩
          (errorMsg (Json.str "a") (Json.str "boom"))).1, []) :=
  C4_at_most_one_settlement ⟨true, [(Json.str "a", FutureState.pending)], []⟩
    (Json.str "a") (Json.str "boom") (Json.bool false) _ _ (by decide) (by decide)
    (Or.inr rfl) (Or.inl rfl)

/-- C5 (confirmed): correlation-id freshness — the ids produced by any run
of _generate_id calls (a monotonically increasing class counter rendered as
f"msg_counter_id(self)") are pairwise distinct, and the receive loop
resolves strictly by id: every settlement action carries exactly the
frame's id, and the only pending entry removed is the one keyed by the
frame's id — so a call is never resolved by another call's frame. -/
theorem C5_correlation_freshness (cl : ClientState) (sid n : Nat) (s : StdioState)
    (m : IPCMessage) (ht : m.type = .str "response" ∨ m.type = .str "error") :
    (generate_many cl sid n).2.Pairwise (fun a b => a ≠ b) ∧
    (∀ id out, RecvAction.settled id out ∈ (handle_message s m).2 → id = m.id) ∧
    (handle_message s m).1.pending_responses = (dictPop s.pending_responses m.id).2 := by
  refine ⟨generate_many_distinct sid n cl, ?_, handle_message_pending_pop s m ht⟩
  intro id out hmem
  rcases handle_message_act_mem s m _ hmem with ⟨o, he⟩ | he | ⟨h2, hs2, he, _, _⟩
  · exact (RecvAction.settled.inj he).1
  · exact absurd he (by simp)
  · exact absurd he (by simp)

/-- Witness for C5: three generated ids and one response frame. -/
theorem C5_correlation_freshness_witness :
    ((responseMsg (Json.str "a") Json.null).type = Json.str "response" ∨
      (responseMsg (Json.str "a") Json.null).type = Json.str "error") ∧
    (generate_many ClientState.init 7 3).2.Pairwise (fun a b => a ≠ b) :=
  ⟨Or.inl rfl,
    (C5_correlation_freshness ClientState.init 7 3
      ⟨true, [], []⟩ (responseMsg (Json.str "a") Json.null) (Or.inl rfl)).1⟩

/-- C6 (amended): topic matching is exact-string only — _handle_message
looks the event's topic up in _event_handlers by plain dict lookup, with no
wildcard support anywhere: a subscription on "user:*" receives only events
published literally to "user:*"; it receives NONE of "user:login",
"user:logout" (contrary to the frozen claim), and correctly none of "user"
or "session:login"; an exact-string subscription matches only the
identical topic. -/
theorem C6_exact_topic_matching (s : StdioState) (topic : String) (payload : Json) :
    (handle_message s (eventMsg topic payload)).2
      = ((dictGet s.event_handlers (.str topic)).getD []).map
          (fun h => .handlerCalled h payload) ∧
    (handle_message ⟨true, [], [(Json.str "user:*", [7])]⟩
        (eventMsg "user:login" payload)).2 = [] ∧
    (handle_message ⟨true, [], [(Json.str "user:*", [7])]⟩
        (eventMsg "user:logout" payload)).2 = [] ∧
    (handle_message ⟨true, [], [(Json.str "user:*", [7])]⟩
        (eventMsg "user" payload)).2 = [] ∧
    (handle_message ⟨true, [], [(Json.str "user:*", [7])]⟩
        (eventMsg "session:login" payload)).2 = [] ∧
    (handle_message ⟨true, [], [(Json.str "user:*", [7])]⟩
        (eventMsg "user:*" payload)).2 = [.handlerCalled 7 payload] := by
  refine ⟨?_, ?_, ?_, ?_, ?_, ?_⟩
  all_goals rw [handle_event]
  all_goals simp [dictGet]

/-- Counterexample to C6 as frozen: the "user:*" subscription receives no
event published to "user:login". -/
theorem C6_counterexample :
    (handle_message ⟨true, [], [(Json.str "user:*", [7])]⟩
        (eventMsg "user:login" (Json.str "pl"))).2 = [] := by
  decide

/-- C8 (confirmed): malformed-frame resilience — with one corrupt line
between two parseable frames, the receive loop does not terminate: it
handles the first frame, logs the corrupt line, and still handles the
second frame exactly as it would have without the corrupt line. -/
theorem C8_malformed_line_resilience (s : StdioState) (l1 c l2 : String)
    (m1 m2 : IPCMessage)
    (h1 : parse_message l1 = .ok m1) (h2 : parse_message l2 = .ok m2)
    (hc : parse_message c = .error .jsonDecode) (hconn : s.connected = true) :
    read_loop s [l1, c, l2]
      = ((handle_message (handle_message s m1).1 m2).1,
         (handle_message s m1).2 ++ .parseFail c ::
           (handle_message (handle_message s m1).1 m2).2) := by
  have e1 : read_step s l1 = handle_message s m1 := by
    unfold read_step; rw [h1]
  have hc1 : (handle_message s m1).1.connected = true := by
    rw [(handle_message_state s m1).1]; exact hconn
  have e2 : read_step (handle_message s m1).1 c
      = ((handle_message s m1).1, [.parseFail c]) := by
    unfold read_step; rw [hc]
  have e3 : read_step (handle_message s m1).1 l2
      = handle_message (handle_message s m1).1 m2 := by
    unfold read_step; rw [h2]
  simp only [read_loop, hconn, hc1, e1, e2, e3, if_true]
  simp

/-- Witness for C8: a response frame, a corrupt line, and an event frame. -/
theorem C8_malformed_line_resilience_witness :
    parse_message (serialize_message (responseMsg (Json.str "q") (Json.bool true)))
      = .ok (responseMsg (Json.str "q") (Json.bool true)) ∧
    parse_message "oops" = .error .jsonDecode ∧
    read_loop ⟨true, [(Json.str "q", FutureState.pending)], [(Json.str "t", [4])]⟩
        [serialize_message (responseMsg (Json.str "q") (Json.bool true)), "oops",
         serialize_message (eventMsg "t" (Json.str "x"))]
      = ((handle_message (handle_message
            ⟨true, [(Json.str "q", FutureState.pending)], [(Json.str "t", [4])]⟩
            (responseMsg (Json.str "q") (Json.bool true))).1
            (eventMsg "t" (Json.str "x"))).1,
         (handle_message ⟨true, [(Json.str "q", FutureState.pending)], [(Json.str "t", [4])]⟩
            (responseMsg (Json.str "q") (Json.bool true))).2 ++
           .parseFail "oops" ::
             (handle_message (handle_message
                ⟨true, [(Json.str "q", FutureState.pending)], [(Json.str "t", [4])]⟩
                (responseMsg (Json.str "q") (Json.bool true))).1
                (eventMsg "t" (Json.str "x"))).2) :=
  ⟨by decide, by decide,
    C8_malformed_line_resilience _ _ "oops" _ _ _ (by decide) (by decide) (by decide) rfl⟩

/-- C10 (confirmed): a handler passed to TauriIPC.listen while the client's
transport is not a StdioTransport is stored only in the client's own
_event_handlers table (the transport is untouched), and since the stdio
read loop consults only the StdioTransport's own table — and no other
receive path dispatches events at all — that handler is never invoked for
any received event in any subsequent run of operations in which it is only
ever registered while the transport is non-stdio. -/
theorem C10_offline_listener_never_invoked (h : Nat) (cl : ClientState)
    (ops : List ClientOp) (e : String)
    (hfree : stdioHandlerFree h cl.transport = true)
    (hoff : listensOffline h cl ops = true)
    (hns : isStdio cl.transport = false) :
    ((client_listen cl e h).transport = cl.transport ∧
      (client_listen cl e h).event_handlers = multiAdd cl.event_handlers e h) ∧
    (∀ p, RecvAction.handlerCalled h p ∉ (client_run cl ops).2) := by
  constructor
  · unfold client_listen
    cases ht : cl.transport with
    | stdioT s => rw [ht] at hns; simp [isStdio] at hns
    | mockT b => exact ⟨rfl, rfl⟩
    | noTransport => exact ⟨rfl, rfl⟩
  · exact client_run_calls_free h ops cl hfree hoff

/-- Witness for C10: handler 5 is registered before connect (transport
None), the client then connects in stdio mode and receives a matching
event line; handler 5 is not invoked. -/
theorem C10_offline_listener_never_invoked_witness :
    stdioHandlerFree 5 ClientState.init.transport = true ∧
    listensOffline 5 ClientState.init
      [.listen "user:login" 5, .connect .stdio,
       .recvLine (serialize_message (eventMsg "user:login" (Json.str "x")))] = true ∧
    isStdio ClientState.init.transport = false ∧
    RecvAction.handlerCalled 5 (Json.str "x")
      ∉ (client_run ClientState.init
          [.listen "user:login" 5, .connect .stdio,
           .recvLine (serialize_message (eventMsg "user:login" (Json.str "x")))]).2 :=
  ⟨by decide, by decide, by decide,
    (C10_offline_listener_never_invoked 5 ClientState.init
      [.listen "user:login" 5, .connect .stdio,
       .recvLine (serialize_message (eventMsg "user:login" (Json.str "x")))]
      "user:login" (by decide) (by decide) (by decide)).2 (Json.str "x")⟩

end Cognia
